import Mathlib

/-!
Verification of the comfyparse configuration language
(src/comfyparse/lexer.py, src/comfyparse/config.py, src/comfyparse/parser.py),
as a shallow embedding in Lean.

Machine strings are Lean `String`s, Python dicts are association lists in
insertion order (updating an existing key keeps its position, a new key is
appended, exactly like a Python dict), raising an exception is `Except.error`,
and the in-place mutation performed by `ConfigBlock.validate_block` on its
argument is made explicit by returning the post-state of the argument next to
the result.
-/

namespace Comfyparse

/-! ## Lexer (src/comfyparse/lexer.py)

The token kinds reuse the lexer's `State` enumeration, as in the source; the
source's SYNTAX member is spelled `STX` here. -/

/-- Python source: `State = enum.Enum('State', ["READY", "VALUE", "STRING", "SYNTAX", "COMMENT"])`.
The member the source calls SYNTAX is spelled `STX`. -/
inductive State where
  | READY
  | VALUE
  | STRING
  | STX
  | COMMENT
deriving DecidableEq, Repr

/-- Python source: `Token = collections.namedtuple('Token', 'value, kind')`. -/
structure Token where
  value : String
  kind : State
deriving DecidableEq, Repr

/-- Class attribute `ComfyLexer.WHITESPACE = "\t "`. -/
def WHITESPACE : String := "\t "

/-- Class attribute `ComfyLexer.COMMENT = "%#"`. -/
def COMMENT : String := "%#"

/-- Class attribute the source calls SYNTAX, `"{}[]=:,;\n"`. -/
def STXCHARS : String := "\x7b\x7d[]=:,;\n"

/-- Class attribute `ComfyLexer.QUOTES = "'\""`. -/
def QUOTES : String := "'\""

/-- Decoding of one two-character escape sequence, modelling what
`bytes(self._consume_char(2), 'utf-8').decode("unicode_escape")` does to a
backslash followed by one character in `_tokenize`'s STRING state.  The
common single-character escapes and octal digits decode to their code
points, an unknown escape keeps both characters (as the codec does), and
the escapes for which two consumed characters are never enough (hex and
unicode escapes), on which the codec raises `ValueError`, are `none`. -/
def decodeEscape (c : Char) : Option String :=
  if c = 'n' then some "\n"
  else if c = 't' then some "\t"
  else if c = 'r' then some "\r"
  else if c = 'b' then some (String.singleton (Char.ofNat 8))
  else if c = 'f' then some (String.singleton (Char.ofNat 12))
  else if c = 'v' then some (String.singleton (Char.ofNat 11))
  else if c = 'a' then some (String.singleton (Char.ofNat 7))
  else if c = '\\' then some "\\"
  else if c = '\'' then some "'"
  else if c = '\"' then some "\""
  else if '0' ≤ c ∧ c ≤ '7' then some (String.singleton (Char.ofNat (c.toNat - 48)))
  else if c = 'x' ∨ c = 'u' ∨ c = 'U' ∨ c = 'N' then none
  else some (String.mk ['\\', c])

/-- Handling of one backslash escape in the STRING state, lines 81-82 of
src/comfyparse/lexer.py: `self._consume_char(2)` has already consumed the
backslash (the head of the two consumed characters); this takes the rest of
the source after the backslash and returns the decoded escape together with
the rest of the source after it, or the `ValueError` the codec raises when
the source ends on the backslash or the escape cannot be decoded from two
characters. -/
def escapeStep (cs : List Char) : Except String (String × List Char) :=
  match cs with
  | [] => .error "ValueError: Trailing backslash in string"
  | d :: ds =>
    match decodeEscape d with
    | none => .error "ValueError: invalid escape sequence"
    | some e => .ok (e, ds)

lemma escapeStep_length {cs ds : List Char} {e : String}
    (h : escapeStep cs = .ok (e, ds)) : ds.length < cs.length := by
  match cs with
  | [] => simp [escapeStep] at h
  | d :: ds' =>
    cases hd : decodeEscape d <;> simp [escapeStep, hd] at h
    obtain ⟨-, rfl⟩ := h
    simp

/-- Ranking of lexer states used only as a termination measure for `lexRun`:
the states that can be entered without consuming a character come first. -/
def stateRank : State → Nat
  | .COMMENT => 0
  | .STX => 0
  | .READY => 1
  | .VALUE => 2
  | .STRING => 2

/-- Recursive rendering of the `while` loop of `ComfyLexer._tokenize`
(src/comfyparse/lexer.py lines 51-108).  The first argument is
`self.state`, the second the `token` accumulator variable (which the loop
never clears, so it can be stale), the third the unread rest of
`self._source`.  Each equation is one branch of the loop body; the
equations for an empty rest are the loop exit, lines 102-105: a final
VALUE token is relabelled STRING, and any other non-READY state flushes
`token` with the current state as its kind.  A `SyntaxError` or the
`ValueError` escaping from the escape decoder becomes `Except.error`. -/
def lexRun : State → String → List Char → Except String (List Token)
  | .READY, _tok, [] => .ok []
  | .READY, tok, c :: cs =>
    if c ∈ WHITESPACE.toList then lexRun .READY tok cs
    else if c ∈ COMMENT.toList then lexRun .COMMENT tok (c :: cs)
    else if c ∈ STXCHARS.toList then lexRun .STX tok (c :: cs)
    else if c ∈ QUOTES.toList then lexRun .STRING (String.singleton c) cs
    else lexRun .VALUE (String.singleton c) cs
  | .COMMENT, tok, [] => .ok [⟨tok, .COMMENT⟩]
  | .COMMENT, tok, c :: cs =>
    if c ≠ '\n' then lexRun .COMMENT tok cs
    else (lexRun .READY tok cs).map (fun rest => ⟨String.singleton c, .STX⟩ :: rest)
  | .STX, tok, [] => .ok [⟨tok, .STX⟩]
  | .STX, tok, c :: cs =>
    (lexRun .READY tok cs).map (fun rest => ⟨String.singleton c, .STX⟩ :: rest)
  | .STRING, tok, [] => .ok [⟨tok, .STRING⟩]
  | .STRING, tok, c :: cs =>
    if c = '\\' then
      match h : escapeStep cs with
      | .error e => .error e
      | .ok (e, ds) => lexRun .STRING (tok ++ e) ds
    else if tok.front = c then
      (lexRun .READY tok cs).map (fun rest => ⟨tok.drop 1, .STRING⟩ :: rest)
    else lexRun .STRING (tok.push c) cs
  | .VALUE, tok, [] => .ok [⟨tok, .STRING⟩]
  | .VALUE, tok, c :: cs =>
    if c ∈ WHITESPACE.toList ∨ c ∈ COMMENT.toList ∨ c ∈ STXCHARS.toList then
      (lexRun .READY tok (c :: cs)).map (fun rest => ⟨tok, .STRING⟩ :: rest)
    else if c ∈ QUOTES.toList then
      .error ("SyntaxError: Unexpected quote in unquoted string starting: " ++ tok)
    else lexRun .VALUE (tok.push c) cs
termination_by m _tok cs => (cs.length, stateRank m)
decreasing_by
  all_goals simp [stateRank]
  all_goals try omega
  all_goals exact Prod.Lex.left _ _ (by have := escapeStep_length h; omega)

/-- Method `ComfyLexer.tokenize` on a freshly constructed lexer: the state
starts READY, the accumulator empty, and the whole source is unread. -/
def tokenize (source : String) : Except String (List Token) :=
  lexRun .READY "" source.toList

instance exceptDecEq {ε α : Type} [DecidableEq ε] [DecidableEq α] :
    DecidableEq (Except ε α) := fun x y =>
  match x, y with
  | .ok a, .ok b =>
    if h : a = b then isTrue (by rw [h]) else isFalse (by intro hh; injection hh; contradiction)
  | .error e, .error f =>
    if h : e = f then isTrue (by rw [h]) else isFalse (by intro hh; injection hh; contradiction)
  | .ok _, .error _ => isFalse fun hh => Except.noConfusion hh
  | .error _, .ok _ => isFalse fun hh => Except.noConfusion hh

/-! ## Generic helper lemmas -/

lemma string_mk_data (s : String) : String.mk s.data = s := by cases s; rfl

lemma string_push_eq (s : String) (c : Char) :
    s.push c = String.mk (s.data ++ [c]) := by cases s; rfl

lemma except_map_ok {α β ε : Type} (f : α → β) (x : Except ε α) (b : β) :
    x.map f = .ok b ↔ ∃ a, x = .ok a ∧ f a = b := by
  cases x <;> simp [Except.map]

lemma mem_dropLast_cons {α : Type} {t a : α} {l : List α}
    (h : t ∈ (a :: l).dropLast) : t = a ∨ t ∈ l.dropLast := by
  cases l with
  | nil => simp at h
  | cons b bs =>
    rw [List.dropLast_cons₂] at h
    exact List.mem_cons.mp h

/-! ## Lexer lemmas -/

/-- Running the lexer in VALUE state over characters that are neither
whitespace, comment starters, syntax characters, nor quotes accumulates
them all and flushes a single STRING token at end of input. -/
lemma lexRun_value_plain (cs : List Char) (tok : String)
    (h : ∀ c ∈ cs, c ∉ WHITESPACE.toList ∧ c ∉ COMMENT.toList ∧
      c ∉ STXCHARS.toList ∧ c ∉ QUOTES.toList) :
    lexRun .VALUE tok cs = .ok [⟨String.mk (tok.data ++ cs), .STRING⟩] := by
  induction cs generalizing tok with
  | nil => simp [lexRun, string_mk_data]
  | cons c cs ih =>
    obtain ⟨h1, h2, h3, h4⟩ := h c (by simp)
    have ih' := ih (tok.push c) (fun d hd => h d (by simp [hd]))
    simp only [lexRun, h1, h2, h3, h4, false_or, ite_false, if_false, not_false_eq_true]
    rw [ih', string_push_eq]
    simp

/-- Running the lexer in STRING state with accumulator starting with the
quote q, over characters that are neither a backslash nor q, accumulates
them all and flushes a single STRING token at end of input. -/
lemma lexRun_string_run (cs : List Char) (q : Char) (r : List Char)
    (h : ∀ c ∈ cs, c ≠ '\\' ∧ c ≠ q) :
    lexRun .STRING (String.mk (q :: r)) cs =
      .ok [⟨String.mk ((q :: r) ++ cs), .STRING⟩] := by
  induction cs generalizing r with
  | nil => simp [lexRun]
  | cons c cs ih =>
    obtain ⟨h1, h2⟩ := h c (by simp)
    have hfront : (String.mk (q :: r)).front = q := rfl
    simp only [lexRun, hfront, if_neg h1, if_neg (Ne.symm h2)]
    have hpush : (String.mk (q :: r)).push c = String.mk (q :: (r ++ [c])) := by
      rw [string_push_eq]; rfl
    rw [hpush, ih (r ++ [c]) (fun d hd => h d (by simp [hd]))]
    simp

lemma mk_append_string (l : List Char) (s : String) :
    String.mk l ++ s = String.mk (l ++ s.data) := by
  cases s
  rfl

/-- Helper for the token-kind invariant: consing a STRING or SYNTAX token
onto a list with the invariant preserves it. -/
lemma kinds_cons (tk : Token) (rest : List Token)
    (hk : tk.kind = State.STRING ∨ tk.kind = State.STX)
    (h1 : ∀ t ∈ rest.dropLast, t.kind = State.STRING ∨ t.kind = State.STX)
    (h2 : ∀ t ∈ rest, t.kind ≠ State.READY ∧ t.kind ≠ State.VALUE) :
    (∀ t ∈ (tk :: rest).dropLast, t.kind = State.STRING ∨ t.kind = State.STX) ∧
    (∀ t ∈ tk :: rest, t.kind ≠ State.READY ∧ t.kind ≠ State.VALUE) := by
  constructor
  · intro t ht
    rcases mem_dropLast_cons ht with rfl | ht'
    · exact hk
    · exact h1 t ht'
  · intro t ht
    rcases List.mem_cons.mp ht with rfl | ht'
    · rcases hk with h' | h' <;> rw [h'] <;> exact ⟨by decide, by decide⟩
    · exact h2 t ht'

/-- Invariant of the lexer loop: in a successful run every emitted token
except possibly the last is STRING- or SYNTAX-kind, and no token is ever
READY- or VALUE-kind (a trailing VALUE is relabelled STRING at end of
input; only a trailing unterminated comment can emit a COMMENT kind, and
only in last position). -/
lemma lexRun_kinds (m : State) (tok : String) (cs : List Char) :
    ∀ toks, lexRun m tok cs = .ok toks →
      (∀ t ∈ toks.dropLast, t.kind = State.STRING ∨ t.kind = State.STX) ∧
      (∀ t ∈ toks, t.kind ≠ State.READY ∧ t.kind ≠ State.VALUE) := by
  induction m, tok, cs using lexRun.induct with
  | case1 tok =>
    intro toks h
    simp only [lexRun, Except.ok.injEq] at h
    subst h
    exact ⟨by simp, by simp⟩
  | case2 tok c cs hc ih =>
    intro toks h
    rw [lexRun] at h
    rw [if_pos hc] at h
    exact ih toks h
  | case3 tok c cs hw hc ih =>
    intro toks h
    rw [lexRun] at h
    rw [if_neg hw, if_pos hc] at h
    exact ih toks h
  | case4 tok c cs hw hcm hs ih =>
    intro toks h
    rw [lexRun] at h
    rw [if_neg hw, if_neg hcm, if_pos hs] at h
    exact ih toks h
  | case5 tok c cs hw hcm hs hq ih =>
    intro toks h
    rw [lexRun] at h
    rw [if_neg hw, if_neg hcm, if_neg hs, if_pos hq] at h
    exact ih toks h
  | case6 tok c cs hw hcm hs hq ih =>
    intro toks h
    rw [lexRun] at h
    rw [if_neg hw, if_neg hcm, if_neg hs, if_neg hq] at h
    exact ih toks h
  | case7 tok =>
    intro toks h
    simp only [lexRun, Except.ok.injEq] at h
    subst h
    exact ⟨by simp, by simp⟩
  | case8 tok c cs hc ih =>
    intro toks h
    rw [lexRun] at h
    rw [if_pos hc] at h
    exact ih toks h
  | case9 tok c cs hc ih =>
    intro toks h
    rw [lexRun] at h
    rw [if_neg hc] at h
    rw [except_map_ok] at h
    obtain ⟨rest, hrest, rfl⟩ := h
    obtain ⟨h1, h2⟩ := ih rest hrest
    exact kinds_cons _ rest (Or.inr rfl) h1 h2
  | case10 tok =>
    intro toks h
    simp only [lexRun, Except.ok.injEq] at h
    subst h
    exact ⟨by simp, by simp⟩
  | case11 tok c cs ih =>
    intro toks h
    rw [lexRun] at h
    rw [except_map_ok] at h
    obtain ⟨rest, hrest, rfl⟩ := h
    obtain ⟨h1, h2⟩ := ih rest hrest
    exact kinds_cons _ rest (Or.inr rfl) h1 h2
  | case12 tok =>
    intro toks h
    simp only [lexRun, Except.ok.injEq] at h
    subst h
    exact ⟨by simp, by simp⟩
  | case13 tok cs e he =>
    intro toks h
    rw [lexRun] at h
    rw [if_pos rfl, he] at h
    exact Except.noConfusion h
  | case14 tok cs e ds he ih =>
    intro toks h
    rw [lexRun] at h
    rw [if_pos rfl, he] at h
    exact ih toks h
  | case15 tok cs hb ih =>
    intro toks h
    rw [lexRun] at h
    rw [if_neg hb, if_pos rfl] at h
    rw [except_map_ok] at h
    obtain ⟨rest, hrest, rfl⟩ := h
    obtain ⟨h1, h2⟩ := ih rest hrest
    exact kinds_cons _ rest (Or.inl rfl) h1 h2
  | case16 tok c cs hb hf ih =>
    intro toks h
    rw [lexRun] at h
    rw [if_neg hb, if_neg hf] at h
    exact ih toks h
  | case17 tok =>
    intro toks h
    simp only [lexRun, Except.ok.injEq] at h
    subst h
    exact ⟨by simp, by simp⟩
  | case18 tok c cs hc ih =>
    intro toks h
    rw [lexRun] at h
    rw [if_pos hc] at h
    rw [except_map_ok] at h
    obtain ⟨rest, hrest, rfl⟩ := h
    obtain ⟨h1, h2⟩ := ih rest hrest
    exact kinds_cons _ rest (Or.inl rfl) h1 h2
  | case19 tok c cs hc hq =>
    intro toks h
    rw [lexRun] at h
    rw [if_neg hc, if_pos hq] at h
    exact Except.noConfusion h
  | case20 tok c cs hc hq ih =>
    intro toks h
    rw [lexRun] at h
    rw [if_neg hc, if_neg hq] at h
    exact ih toks h

/-! ## Claim C4: unterminated quoted string at end of input -/

/-- C5 counterexample: a source that ends inside a comment with no
terminating newline emits a COMMENT-kind token, whose value is the stale
accumulator (here the text of the previous token), so not every token of a
successful tokenize run is STRING- or SYNTAX-kind. -/
theorem tokenize_comment_token_counterexample :
    tokenize "x #c" = .ok [⟨"x", .STRING⟩, ⟨"x", .COMMENT⟩] := by
  simp [tokenize, lexRun, WHITESPACE, COMMENT, STXCHARS, QUOTES, Except.map]
  decide

/-- C5 (amended): in every successful run of `tokenize`, every token except
possibly the final one has kind STRING or SYNTAX, and no token ever has
kind READY or VALUE; only the final token can carry the COMMENT kind, which
happens exactly when the source ends inside an unterminated comment.  In
particular a comment terminated by a newline contributes only that newline
as a SYNTAX token. -/
theorem tokenize_token_kinds (s : String) (toks : List Token)
    (h : tokenize s = .ok toks) :
    (∀ t ∈ toks.dropLast, t.kind = State.STRING ∨ t.kind = State.STX) ∧
    (∀ t ∈ toks, t.kind ≠ State.READY ∧ t.kind ≠ State.VALUE) :=
  lexRun_kinds .READY "" s.toList toks h

/-- C5 witness: the amended statement applied to a concrete source with a
newline-terminated comment. -/
theorem tokenize_token_kinds_witness :
    (⟨"a", State.STRING⟩ : Token).kind = State.STRING ∨
      (⟨"a", State.STRING⟩ : Token).kind = State.STX :=
  (tokenize_token_kinds "a # c\nb" [⟨"a", .STRING⟩, ⟨"\n", .STX⟩, ⟨"b", .STRING⟩]
    (by simp [tokenize, lexRun, WHITESPACE, COMMENT, STXCHARS, QUOTES, Except.map]; decide)).1
    ⟨"a", .STRING⟩ (by decide)

/-! ## Claim C9: bare scalar tokens -/

/-- C9 counterexample: the source consisting of the single character hash
contains no whitespace, no syntax character, and no quote character, yet
`tokenize` emits one COMMENT-kind token with empty value rather than one
STRING token with the source as its value, because hash is a comment
starter (src/comfyparse/lexer.py line 28). -/
theorem tokenize_bare_scalar_counterexample :
    tokenize "#" = .ok [⟨"", .COMMENT⟩] := by
  simp [tokenize, lexRun, WHITESPACE, COMMENT, STXCHARS, QUOTES]

/-- C9 (amended): every non-empty source containing no whitespace, no
syntax character, no quote character, and also no comment-starter
character lexes to exactly one token, of kind STRING, whose value is
exactly the source. -/
theorem tokenize_bare_scalar (s : String) (hne : s ≠ "")
    (h : ∀ c ∈ s.data, c ∉ WHITESPACE.toList ∧ c ∉ COMMENT.toList ∧
      c ∉ STXCHARS.toList ∧ c ∉ QUOTES.toList) :
    tokenize s = .ok [⟨s, .STRING⟩] := by
  obtain ⟨l⟩ := s
  match l, hne, h with
  | [], hne, _ => exact absurd rfl hne
  | c :: cs, _, h =>
    obtain ⟨h1, h2, h3, h4⟩ := h c (by simp)
    unfold tokenize
    have hdata : (String.mk (c :: cs)).toList = c :: cs := rfl
    rw [hdata]
    simp only [lexRun, h1, h2, h3, h4, if_neg, ite_false]
    rw [lexRun_value_plain cs (String.singleton c) (fun d hd => h d (by simp [hd]))]
    rfl

/-- C9 witness: the amended statement at a concrete bare word. -/
theorem tokenize_bare_scalar_witness : tokenize "abc" = .ok [⟨"abc", .STRING⟩] :=
  tokenize_bare_scalar "abc" (by decide) (by decide)

/-! ## Configuration values and Namespace (src/comfyparse/config.py)

A value stored in a Namespace is, as produced by the parser, a Python
string, a list, a child Namespace, or a dict mapping instance names to
Namespaces (named blocks); `Value.none` is Python's None, which appears as
a settings default and in validated output.  Converters may return any of
these.  Python equality on these values is structural for strings and
lists; the model also uses structural equality for Namespaces (Python
would use object identity there, but namespaces never realistically occur
in a `choices` list, the only place the code compares values). -/

mutual
inductive Value where
  | none : Value
  | str : String → Value
  | vlist : List Value → Value
  | ns : Namespace → Value
  | dict : List (String × Namespace) → Value

/-- Class `Namespace` (src/comfyparse/config.py lines 25-67): the optional
name passed to the constructor and the internal `_attrs` dict, rendered as
an insertion-ordered association list. -/
inductive Namespace where
  | mk : Option String → List (String × Value) → Namespace
end

def Namespace.name : Namespace → Option String
  | .mk n _ => n

/-- Attribute `_attrs` of a Namespace. -/
def Namespace.attrs : Namespace → List (String × Value)
  | .mk _ a => a

def Value.isNone : Value → Bool
  | .none => true
  | _ => false

/-- Assignment `d[k] = v` on a Python dict rendered as an association
list: an existing key keeps its position and gets the new value, a new key
is appended at the end. -/
def setKey {α : Type} : List (String × α) → String → α → List (String × α)
  | [], k, v => [(k, v)]
  | (k', v') :: rest, k, v =>
    if k' = k then (k, v) :: rest else (k', v') :: setKey rest k v

/-- Membership test `key in self._attrs` (`Namespace.__contains__`). -/
def hasKey {α : Type} (l : List (String × α)) (k : String) : Bool :=
  (l.lookup k).isSome

/-- Method `Namespace.get(key, default=None)` with the default defaulted:
`self._attrs.get(key, None)`. -/
def Namespace.get (n : Namespace) (k : String) : Value :=
  (n.attrs.lookup k).getD .none

/-- Indexed assignment `Namespace.__setitem__`. -/
def Namespace.set (n : Namespace) (k : String) (v : Value) : Namespace :=
  .mk n.name (setKey n.attrs k v)

/-- Method `Namespace.copy`: a new Namespace with the same name and a
shallow copy of `_attrs`.  In this pure model a copy is the value itself;
the sharing the Python copy creates is tracked explicitly by
`ConfigBlock.validate_block` returning the post-state of its argument. -/
def Namespace.copy (n : Namespace) : Namespace :=
  .mk n.name n.attrs

mutual
/-- Structural equality on stored values, Python's `==` on the parsed data
(see the module comment on Namespace identity). -/
def Value.beq : Value → Value → Bool
  | .none, .none => true
  | .str a, .str b => a == b
  | .vlist a, .vlist b => Value.beqList a b
  | .ns a, .ns b => Namespace.beq a b
  | .dict a, .dict b => Namespace.beqInsts a b
  | _, _ => false

def Value.beqList : List Value → List Value → Bool
  | [], [] => true
  | a :: as', b :: bs => Value.beq a b && Value.beqList as' bs
  | _, _ => false

def Namespace.beq : Namespace → Namespace → Bool
  | .mk n a, .mk m b => n == m && Namespace.beqAttrs a b

def Namespace.beqAttrs : List (String × Value) → List (String × Value) → Bool
  | [], [] => true
  | (k, v) :: as', (k', v') :: bs => k == k' && Value.beq v v' && Namespace.beqAttrs as' bs
  | _, _ => false

def Namespace.beqInsts : List (String × Namespace) → List (String × Namespace) → Bool
  | [], [] => true
  | (k, v) :: as', (k', v') :: bs => k == k' && Namespace.beq v v' && Namespace.beqInsts as' bs
  | _, _ => false
end

instance : BEq Value := ⟨Value.beq⟩

mutual
/-- Python `repr()` of a stored value, as used inside containers by the
f-string interpolations of the error messages in config.py.  The default
object `repr` of a Namespace (a type-and-address string) is approximated
by `Namespace.__str__`; no claim depends on that corner. -/
def Value.reprPy : Value → String
  | .none => "None"
  | .str s => "'" ++ s ++ "'"
  | .vlist l => "[" ++ Value.reprList l ++ "]"
  | .ns n => Namespace.strPy n
  | .dict d => "\x7b" ++ Namespace.reprInsts d ++ "\x7d"

def Value.reprList : List Value → String
  | [] => ""
  | [v] => Value.reprPy v
  | v :: rest => Value.reprPy v ++ ", " ++ Value.reprList rest

/-- Python `str()` of a stored value, as used by the f-string
interpolations of the error messages in config.py. -/
def Value.strPy : Value → String
  | .str s => s
  | v => Value.reprPy v

/-- Method `Namespace.__str__` (config.py lines 55-57). -/
def Namespace.strPy : Namespace → String
  | .mk n a =>
    "Namespace" ++ (match n with | some s => "[" ++ s ++ "]" | Option.none => "") ++
      "\x7b" ++ Namespace.strAttrs a ++ "\x7d"

def Namespace.strAttrs : List (String × Value) → String
  | [] => ""
  | [(k, v)] => k ++ ": " ++ Value.strPy v
  | (k, v) :: rest => k ++ ": " ++ Value.strPy v ++ ", " ++ Namespace.strAttrs rest

def Namespace.reprInsts : List (String × Namespace) → String
  | [] => ""
  | [(k, n)] => "'" ++ k ++ "': " ++ Namespace.strPy n
  | (k, n) :: rest => "'" ++ k ++ "': " ++ Namespace.strPy n ++ ", " ++ Namespace.reprInsts rest
end

/-! ## ConfigSetting (src/comfyparse/config.py lines 70-137) -/

/-- Class `ConfigSetting`: the specification of a single setting, with the
constructor's keyword arguments as fields.  A converter is a function that
may raise (any exception becomes `Except.error`); its Python default
`choices=None` and an explicit empty list are both falsy in the
`if self.choices` guard, so both are the empty list here. -/
structure ConfigSetting where
  name : String
  desc : String
  required : Bool
  default : Value
  choices : List Value
  convert : Option (Value → Except String Value)
  validate : Option (Value → Bool)

/-- Message of config.py line 115. -/
def missingMsg (name : String) : String :=
  "Missing required setting: " ++ name

/-- Message of config.py lines 121-123. -/
def convertMsg (name : String) (raw : Value) : String :=
  "Error on setting '" ++ name ++ "' with value '" ++ raw.strPy ++ "'"

/-- Message of config.py lines 128-130. -/
def choicesMsg (name : String) (raw : Value) (choices : List Value) : String :=
  "Invalid setting " ++ name ++ "=" ++ raw.strPy ++ ", choices are [" ++
    Value.reprList choices ++ "]"

/-- Message of config.py lines 133-135. -/
def checkMsg (name : String) (raw : Value) : String :=
  "Validation check failed for setting " ++ name ++ "=" ++ raw.strPy

/-- Lines 117-125 of config.py: if a raw value was supplied, apply the
optional converter, wrapping any exception it raises into a
ValidationError naming the setting and the raw value; with no raw value
take the declared default. -/
def ConfigSetting.convertedOrDefault (s : ConfigSetting) (raw_value : Value) :
    Except String Value :=
  if !raw_value.isNone then
    match s.convert with
    | Option.none => .ok raw_value
    | Option.some f =>
      match f raw_value with
      | .ok v => .ok v
      | .error _ => .error (convertMsg s.name raw_value)
  else .ok s.default

/-- Method `ConfigSetting.validate_value` (config.py lines 112-137):
required check on the raw value, then conversion (or default), then the
choices membership check, then the validity predicate, in that order. -/
def ConfigSetting.validate_value (s : ConfigSetting) (raw_value : Value) :
    Except String Value :=
  if s.required && raw_value.isNone then .error (missingMsg s.name)
  else
    match s.convertedOrDefault raw_value with
    | .error e => .error e
    | .ok value =>
      if !s.choices.isEmpty && !(s.choices.any (fun c => Value.beq value c)) then
        .error (choicesMsg s.name raw_value s.choices)
      else
        match s.validate with
        | Option.some p =>
          if p value = false then .error (checkMsg s.name raw_value) else .ok value
        | Option.none => .ok value

/-! ## ConfigBlock (src/comfyparse/config.py lines 140-288)

A ConfigBlock is recursive through its children, so it is an inductive
type; `settings` and `children` are its two dicts in insertion order.
The mutating builder methods `add_setting` and `add_block` return the
updated block (and `add_block` also the new child, which Python returns),
with `Except.error` standing for a raised ConfigSpecError. -/

inductive ConfigBlock where
  | mk : (kind : String) → (named : Bool) → (desc : String) → (required : Bool) →
      (validate : Option (Namespace → Bool)) →
      (settings : List (String × ConfigSetting)) →
      (children : List (String × ConfigBlock)) → ConfigBlock

def ConfigBlock.kind : ConfigBlock → String
  | .mk k _ _ _ _ _ _ => k

def ConfigBlock.named : ConfigBlock → Bool
  | .mk _ n _ _ _ _ _ => n

def ConfigBlock.desc : ConfigBlock → String
  | .mk _ _ d _ _ _ _ => d

def ConfigBlock.required : ConfigBlock → Bool
  | .mk _ _ _ r _ _ _ => r

def ConfigBlock.validate : ConfigBlock → Option (Namespace → Bool)
  | .mk _ _ _ _ v _ _ => v

def ConfigBlock.settings : ConfigBlock → List (String × ConfigSetting)
  | .mk _ _ _ _ _ s _ => s

def ConfigBlock.children : ConfigBlock → List (String × ConfigBlock)
  | .mk _ _ _ _ _ _ c => c

/-- Message of config.py lines 187 and 213. -/
def duplicateMsg (name : String) : String :=
  "Duplicate use of setting name or block kind: " ++ name

/-- Method `ConfigBlock.add_block` (config.py lines 163-189): after the
duplicate-name check, a fresh child block is stored under `kind` and
returned; the result pairs the updated parent with the new child.  No
other check is performed. -/
def ConfigBlock.add_block (cb : ConfigBlock) (kind : String) (named : Bool)
    (desc : String) (required : Bool) (validate : Option (Namespace → Bool)) :
    Except String (ConfigBlock × ConfigBlock) :=
  if hasKey cb.settings kind || hasKey cb.children kind then
    .error (duplicateMsg kind)
  else
    let child : ConfigBlock := .mk kind named desc required validate [] []
    .ok (.mk cb.kind cb.named cb.desc cb.required cb.validate cb.settings
      (setKey cb.children kind child), child)

/-- Method `ConfigBlock.add_setting` (config.py lines 191-218): the
duplicate-name check, then the required-with-default check, then the new
setting is stored under `name`. -/
def ConfigBlock.add_setting (cb : ConfigBlock) (name : String) (desc : String)
    (required : Bool) (default : Value) (choices : List Value)
    (convert : Option (Value → Except String Value))
    (validate : Option (Value → Bool)) : Except String ConfigBlock :=
  if hasKey cb.settings name || hasKey cb.children name then
    .error (duplicateMsg name)
  else if required && !default.isNone then
    .error ("Required setting '" ++ name ++ "' shouldn't provide a default")
  else
    .ok (.mk cb.kind cb.named cb.desc cb.required cb.validate
      (setKey cb.settings name ⟨name, desc, required, default, choices, convert, validate⟩)
      cb.children)

/-- Test `isinstance(x, Namespace)` on a stored value. -/
def Value.isNs : Value → Bool
  | .ns _ => true
  | _ => false

/-- Test `isinstance(x, dict)` on a stored value. -/
def Value.isDict : Value → Bool
  | .dict _ => true
  | _ => false

/-- The first loop of `ConfigBlock.validate_block` (config.py lines
262-269), over the keys of the raw block in order: an unrecognized key, a
declared setting holding a Namespace, or a declared child kind holding
neither a Namespace nor a dict, each raise a ValidationError. -/
def checkKeys (settings : List (String × ConfigSetting))
    (children : List (String × ConfigBlock)) :
    List (String × Value) → Except String Unit
  | [] => .ok ()
  | (key, v) :: rest =>
    if !hasKey settings key && !hasKey children key then
      .error ("Unrecognized setting or block kind: " ++ key)
    else if hasKey settings key && v.isNs then
      .error ("Invalid block kind should be setting: " ++ key)
    else if hasKey children key && !(v.isNs || v.isDict) then
      .error ("Invalid setting should be a block: " ++ key)
    else checkKeys settings children rest

/-- The settings loop of `ConfigBlock.validate_block` (config.py lines
271-272): for every declared setting in order,
`validated[name] = setting.validate_value(block.get(name, None))`, where
`block` is the unmodified input and the accumulator starts as its shallow
copy. -/
def settingsFold (block : Namespace) :
    List (String × ConfigSetting) → List (String × Value) →
    Except String (List (String × Value))
  | [], acc => .ok acc
  | (name, s) :: rest, acc =>
    match s.validate_value (block.get name) with
    | .error e => .error e
    | .ok v => settingsFold block rest (setKey acc name v)

mutual
/-- Method `ConfigBlock.validate_block` (config.py lines 256-288).  The
result pairs the returned validated Namespace with the post-state of the
argument: `validated = block.copy()` is a shallow copy, so the dict objects
held by `block` for named child blocks are the same objects indexed through
`validated`, and the loop of line 280-281 mutates them in place; every
other write targets `validated`'s own dict.  The name carried by each
output is the input's, as `copy` preserves it. -/
def ConfigBlock.validate_block (cb : ConfigBlock) (block : Namespace) :
    Except String (Namespace × Namespace) :=
  match cb with
  | .mk kind _named _desc _required vald settings children =>
    match checkKeys settings children block.attrs with
    | .error e => .error e
    | .ok () =>
      match settingsFold block settings block.attrs with
      | .error e => .error e
      | .ok vAttrs =>
        match childrenFold children vAttrs block.attrs with
        | .error e => .error e
        | .ok (vAttrs', bAttrs') =>
          let validated : Namespace := .mk block.name vAttrs'
          match vald with
          | Option.some p =>
            if p validated = false then
              .error ("Validation check failed for block " ++ kind)
            else .ok (validated, .mk block.name bAttrs')
          | Option.none => .ok (validated, .mk block.name bAttrs')

/-- The children loop of `ConfigBlock.validate_block` (config.py lines
274-283), threading both the `validated` attrs and the (mutated) `block`
attrs: a missing non-required child is skipped, a missing required child
raises, a dict value has each instance validated and written back into the
shared dict object (so both sides see the new dict), and a Namespace value
is validated recursively into `validated` only, its own post-state staying
inside `block`.  A scalar at a child kind was already rejected by
`checkKeys`; the corresponding dead branch re-raises that error. -/
def childrenFold : List (String × ConfigBlock) →
    List (String × Value) → List (String × Value) →
    Except String (List (String × Value) × List (String × Value))
  | [], vAttrs, bAttrs => .ok (vAttrs, bAttrs)
  | (kind, child) :: rest, vAttrs, bAttrs =>
    match bAttrs.lookup kind with
    | Option.none =>
      if child.required then .error ("Missing required block: " ++ kind)
      else childrenFold rest vAttrs bAttrs
    | Option.some (Value.dict d) =>
      match instancesFold child d with
      | .error e => .error e
      | .ok newD =>
        childrenFold rest (setKey vAttrs kind (Value.dict newD))
          (setKey bAttrs kind (Value.dict newD))
    | Option.some (Value.ns inner) =>
      match child.validate_block inner with
      | .error e => .error e
      | .ok (vi, ai) =>
        childrenFold rest (setKey vAttrs kind (Value.ns vi))
          (setKey bAttrs kind (Value.ns ai))
    | Option.some _ => .error ("Invalid setting should be a block: " ++ kind)

/-- The inner loop of config.py lines 280-281: each named instance is
validated and assigned back into the dict under its own key; the raw
instance object is replaced, so its own post-state is dropped. -/
def instancesFold (child : ConfigBlock) :
    List (String × Namespace) → Except String (List (String × Namespace))
  | [] => .ok []
  | (key, inst) :: rest =>
    match child.validate_block inst with
    | .error e => .error e
    | .ok (vi, _ai) =>
      match instancesFold child rest with
      | .error e => .error e
      | .ok tail => .ok ((key, vi) :: tail)
end

/-! ## Association list toolkit -/

lemma lookup_eq_none {α : Type} (l : List (String × α)) (k : String)
    (h : k ∉ l.map Prod.fst) : l.lookup k = Option.none := by
  induction l with
  | nil => rfl
  | cons p rest ih =>
    obtain ⟨k', v'⟩ := p
    simp only [List.map_cons, List.mem_cons] at h
    push_neg at h
    have hbe : (k == k') = false := beq_eq_false_iff_ne.mpr h.1
    simp [List.lookup, hbe, ih h.2]

lemma lookup_setKey_self {α : Type} (l : List (String × α)) (k : String) (v : α) :
    (setKey l k v).lookup k = some v := by
  induction l with
  | nil => simp [setKey, List.lookup]
  | cons p rest ih =>
    obtain ⟨k', v'⟩ := p
    by_cases hk : k' = k
    · subst hk
      simp [setKey, List.lookup]
    · have hbe : (k == k') = false := beq_eq_false_iff_ne.mpr (fun hh => hk hh.symm)
      simp [setKey, hk, List.lookup, hbe, ih]

lemma lookup_setKey_ne {α : Type} (l : List (String × α)) (k k' : String) (v : α)
    (h : k' ≠ k) : (setKey l k v).lookup k' = l.lookup k' := by
  have hbe : (k' == k) = false := beq_eq_false_iff_ne.mpr h
  induction l with
  | nil => simp [setKey, List.lookup, hbe]
  | cons p rest ih =>
    obtain ⟨k'', v''⟩ := p
    by_cases hk : k'' = k
    · subst hk
      simp [setKey, List.lookup, hbe]
    · simp only [setKey, if_neg hk, List.lookup]
      cases hbe2 : (k' == k'') <;> simp [hbe2, ih]

lemma setKey_of_lookup {α : Type} (l : List (String × α)) (k : String) (v : α)
    (h : l.lookup k = some v) : setKey l k v = l := by
  induction l with
  | nil => simp [List.lookup] at h
  | cons p rest ih =>
    obtain ⟨k', v'⟩ := p
    by_cases hk : k' = k
    · subst hk
      simp only [List.lookup, beq_self_eq_true] at h
      simp only [Option.some.injEq] at h
      simp [setKey, h]
    · have hbe : (k == k') = false := beq_eq_false_iff_ne.mpr (fun hh => hk hh.symm)
      simp only [List.lookup, hbe] at h
      simp [setKey, hk, ih h]

lemma setKey_keys {α : Type} (l : List (String × α)) (k : String) (v : α) :
    (setKey l k v).map Prod.fst =
      if k ∈ l.map Prod.fst then l.map Prod.fst else l.map Prod.fst ++ [k] := by
  induction l with
  | nil => simp [setKey]
  | cons p rest ih =>
    obtain ⟨k', v'⟩ := p
    by_cases hk : k' = k
    · subst hk
      simp [setKey]
    · simp only [setKey, if_neg hk, List.map_cons, ih]
      by_cases hm : k ∈ rest.map Prod.fst
      · rw [if_pos hm, if_pos (by simp [hm])]
      · rw [if_neg hm, if_neg (by
          simp only [List.mem_cons]
          push_neg
          exact ⟨fun hh => hk hh.symm, hm⟩), List.cons_append]

lemma lookup_mem {α : Type} {l : List (String × α)} {k : String} {v : α}
    (h : l.lookup k = some v) : (k, v) ∈ l := by
  induction l with
  | nil => simp [List.lookup] at h
  | cons p rest ih =>
    obtain ⟨k', v'⟩ := p
    simp only [List.lookup] at h
    cases hbe : (k == k') with
    | true =>
      rw [hbe] at h
      simp only [Option.some.injEq] at h
      subst h
      simp [(beq_iff_eq ..).mp hbe]
    | false =>
      rw [hbe] at h
      exact List.mem_cons_of_mem _ (ih h)

lemma mem_lookup_of_nodup {α : Type} {l : List (String × α)} {k : String} {v : α}
    (hnd : (l.map Prod.fst).Nodup) (h : (k, v) ∈ l) : l.lookup k = some v := by
  induction l with
  | nil => simp at h
  | cons p rest ih =>
    obtain ⟨k', v'⟩ := p
    simp only [List.map_cons, List.nodup_cons] at hnd
    rcases List.mem_cons.mp h with heq | hmem
    · cases heq
      simp [List.lookup]
    · have hk : (k == k') = false := by
        refine beq_eq_false_iff_ne.mpr (fun hh => ?_)
        subst hh
        exact hnd.1 (by simpa using List.mem_map_of_mem Prod.fst hmem)
      simp only [List.lookup, hk]
      exact ih hnd.2 hmem

/-! ## Claim C3: named and required block -/

/-- C3: `add_block` accepts `named=True, required=True` without raising.
Evaluating the code at the failing input of
tests/test_config.py test_named_and_required_error: a fresh block gains
the child `bad_block` with both flags set, and the child is returned —
ConfigSpecError is never raised, contradicting the claim, the spec, and
the repository's own test. -/
theorem add_block_named_required_accepted :
    (ConfigBlock.mk "test" false "" false Option.none [] []).add_block
        "bad_block" true "" true Option.none =
      .ok (ConfigBlock.mk "test" false "" false Option.none []
          [("bad_block", ConfigBlock.mk "bad_block" true "" true Option.none [] [])],
        ConfigBlock.mk "bad_block" true "" true Option.none [] []) := rfl

/-! ## Claim C8: required setting with a default -/

/-- C8: declaring a setting both required and with a non-None default makes
`add_setting` raise a ConfigSpecError (either the duplicate-name error of
line 213 or the required-with-default error of line 215, both
ConfigSpecError) at schema-construction time, and no updated block is
produced, so the setting is not added. -/
theorem add_setting_required_default_rejected (cb : ConfigBlock)
    (name desc : String) (default : Value) (choices : List Value)
    (convert : Option (Value → Except String Value))
    (validate : Option (Value → Bool))
    (hd : default.isNone = false) :
    ∃ msg, cb.add_setting name desc true default choices convert validate =
      .error msg := by
  unfold ConfigBlock.add_setting
  split
  · exact ⟨_, rfl⟩
  · rw [if_pos (by simp [hd])]
    exact ⟨_, rfl⟩

/-- C8 witness: the conflicting declaration of
tests/test_parser.py test_conflicting_options. -/
theorem add_setting_required_default_rejected_witness :
    ∃ msg, (ConfigBlock.mk "test" false "" false Option.none [] []).add_setting
      "conflict" "" true (.str "foo") [] Option.none Option.none = .error msg :=
  add_setting_required_default_rejected _ "conflict" "" (.str "foo") []
    Option.none Option.none rfl

/-! ## Claim C7: order of the validation steps of a setting -/

/-- C7: `validate_value` applies its steps in a fixed order: a required
setting with no raw value fails first with the missing-setting error; with
a raw value the converter runs first and a converter exception becomes a
validation error naming the setting and the raw value; then membership in
choices is checked on the converted value; then the validity predicate
runs on the converted value; and with no raw value the declared default is
taken without the converter ever running. -/
theorem validate_value_order (s : ConfigSetting) (raw : Value) :
    (s.required = true → raw.isNone = true →
      s.validate_value raw = .error (missingMsg s.name)) ∧
    (raw.isNone = false → ∀ f e, s.convert = some f → f raw = .error e →
      s.validate_value raw = .error (convertMsg s.name raw)) ∧
    (raw.isNone = false → ∀ f v, s.convert = some f → f raw = .ok v →
      s.choices.isEmpty = false → s.choices.any (fun c => Value.beq v c) = false →
      s.validate_value raw = .error (choicesMsg s.name raw s.choices)) ∧
    (raw.isNone = false → ∀ f v p, s.convert = some f → f raw = .ok v →
      (s.choices.isEmpty = true ∨ s.choices.any (fun c => Value.beq v c) = true) →
      s.validate = some p → p v = false →
      s.validate_value raw = .error (checkMsg s.name raw)) ∧
    (raw.isNone = false → ∀ f v, s.convert = some f → f raw = .ok v →
      (s.choices.isEmpty = true ∨ s.choices.any (fun c => Value.beq v c) = true) →
      (∀ p, s.validate = some p → p v = true) →
      s.validate_value raw = .ok v) ∧
    (s.required = false → raw.isNone = true →
      s.convertedOrDefault raw = .ok s.default ∧
      (s.choices.isEmpty = true → (∀ p, s.validate = some p → p s.default = true) →
        s.validate_value raw = .ok s.default)) := by
  refine ⟨?_, ?_, ?_, ?_, ?_, ?_⟩
  · intro hr hn
    simp [ConfigSetting.validate_value, hr, hn]
  · intro hn f e hf he
    simp [ConfigSetting.validate_value, ConfigSetting.convertedOrDefault, hn, hf, he]
  · intro hn f v hf hv hne hmem
    simp only [ConfigSetting.validate_value, ConfigSetting.convertedOrDefault,
      hn, hf, hv, hne, hmem, Bool.and_false, Bool.false_and, Bool.not_false,
      Bool.not_true, Bool.and_true, Bool.true_and, ite_false, ite_true,
      Bool.and_self, if_false, if_true]
    simp [hn]
  · intro hn f v p hf hv hch hval hp
    have hcond : (!s.choices.isEmpty && !(s.choices.any (fun c => Value.beq v c))) = false := by
      rcases hch with h | h <;> simp [h]
    simp [ConfigSetting.validate_value, ConfigSetting.convertedOrDefault,
      hn, hf, hv, hcond, hval, hp]
  · intro hn f v hf hv hch hval
    have hcond : (!s.choices.isEmpty && !(s.choices.any (fun c => Value.beq v c))) = false := by
      rcases hch with h | h <;> simp [h]
    cases hvd : s.validate with
    | none =>
      simp [ConfigSetting.validate_value, ConfigSetting.convertedOrDefault,
        hn, hf, hv, hcond, hvd]
    | some p =>
      simp [ConfigSetting.validate_value, ConfigSetting.convertedOrDefault,
        hn, hf, hv, hcond, hvd, hval p hvd]
  · intro hr hn
    constructor
    · simp [ConfigSetting.convertedOrDefault, hn]
    · intro hce hval
      cases hvd : s.validate with
      | none =>
        simp [ConfigSetting.validate_value, ConfigSetting.convertedOrDefault,
          hr, hn, hce, hvd]
      | some p =>
        simp [ConfigSetting.validate_value, ConfigSetting.convertedOrDefault,
          hr, hn, hce, hvd, hval p hvd]

/-- Converter used in witnesses and counterexamples: appends an
exclamation mark to a string, raises on anything else (like the `int` and
`timedelta` converters of the repository's tests, it is not idempotent). -/
def bangConv : Value → Except String Value
  | .str s => .ok (.str (s ++ "!"))
  | _ => .error "unsupported operand"

def bangPred : Value → Bool := fun v => Value.beq v (.str "a!")

def c7setting : ConfigSetting :=
  ⟨"lvl", "", false, .none, [.str "a!"], some bangConv, some bangPred⟩

/-- C7 witness: the full pipeline at a concrete setting with converter,
choices, and predicate; the choices list contains only the converted value,
showing the membership check runs on the converted value. -/
theorem validate_value_order_witness :
    c7setting.validate_value (.str "a") = .ok (.str "a!") :=
  (validate_value_order c7setting (.str "a")).2.2.2.2.1 rfl bangConv (.str "a!")
    rfl rfl (Or.inr (by simp [c7setting, Value.beq]))
    (fun p hp => by rw [← Option.some.inj hp]; simp [bangPred, Value.beq])

/-! ## First-run characterization of the validator folds -/

/-- The settings loop writes every declared setting exactly once and leaves
other keys alone. -/
lemma settingsFold_lookup (block : Namespace) :
    ∀ (settings : List (String × ConfigSetting)) (acc out : List (String × Value)),
    settingsFold block settings acc = .ok out →
    (∀ k, k ∉ settings.map Prod.fst → out.lookup k = acc.lookup k) ∧
    ((settings.map Prod.fst).Nodup →
      ∀ p ∈ settings, ∃ w, p.2.validate_value (block.get p.1) = .ok w ∧
        out.lookup p.1 = some w) := by
  intro settings
  induction settings with
  | nil =>
    intro acc out h
    simp only [settingsFold, Except.ok.injEq] at h
    subst h
    exact ⟨fun k _ => rfl, fun _ p hp => by simp at hp⟩
  | cons q rest ih =>
    obtain ⟨name, s⟩ := q
    intro acc out h
    simp only [settingsFold] at h
    split at h
    · exact absurd h (by simp)
    · rename_i w hval
      obtain ⟨ih1, ih2⟩ := ih (setKey acc name w) out h
      constructor
      · intro k hk
        simp only [List.map_cons, List.mem_cons] at hk
        push_neg at hk
        rw [ih1 k hk.2, lookup_setKey_ne _ _ _ _ hk.1]
      · intro hnd p hp
        simp only [List.map_cons, List.nodup_cons] at hnd
        rcases List.mem_cons.mp hp with heq | hmem
        · subst heq
          exact ⟨w, hval, by rw [ih1 name hnd.1, lookup_setKey_self]⟩
        · exact ih2 hnd.2 p hmem

/-- The children loop touches only keys that are declared child kinds. -/
lemma childrenFold_lookup_not_mem :
    ∀ (children : List (String × ConfigBlock))
      (vA bA outV outB : List (String × Value)),
    childrenFold children vA bA = .ok (outV, outB) →
    ∀ k, k ∉ children.map Prod.fst →
      outV.lookup k = vA.lookup k ∧ outB.lookup k = bA.lookup k := by
  intro children
  induction children with
  | nil =>
    intro vA bA outV outB h k hk
    simp only [childrenFold, Except.ok.injEq, Prod.mk.injEq] at h
    obtain ⟨rfl, rfl⟩ := h
    exact ⟨rfl, rfl⟩
  | cons q rest ih =>
    obtain ⟨kind, child⟩ := q
    intro vA bA outV outB h k hk
    simp only [List.map_cons, List.mem_cons] at hk
    push_neg at hk
    simp only [childrenFold] at h
    split at h
    · split at h
      · exact absurd h (by simp)
      · exact ih vA bA outV outB h k hk.2
    · rename_i d hd
      split at h
      · exact absurd h (by simp)
      · rename_i newD hinst
        obtain ⟨h1, h2⟩ := ih _ _ outV outB h k hk.2
        rw [h1, h2, lookup_setKey_ne _ _ _ _ hk.1, lookup_setKey_ne _ _ _ _ hk.1]
        exact ⟨rfl, rfl⟩
    · rename_i inner hinner
      split at h
      · exact absurd h (by simp)
      · rename_i pr hpr
        obtain ⟨h1, h2⟩ := ih _ _ outV outB h k hk.2
        rw [h1, h2, lookup_setKey_ne _ _ _ _ hk.1, lookup_setKey_ne _ _ _ _ hk.1]
        exact ⟨rfl, rfl⟩
    · exact absurd h (by simp)

/-- A successful validation of a missing raw value returns the declared
default. -/
lemma validate_value_none_default (s : ConfigSetting) (w : Value)
    (h : s.validate_value Value.none = .ok w) : w = s.default := by
  unfold ConfigSetting.validate_value ConfigSetting.convertedOrDefault at h
  split at h
  · exact absurd h (by simp)
  · split at h
    · rename_i e heq
      simp [Value.isNone] at heq
    · rename_i value heq
      simp only [Value.isNone, Bool.not_true] at heq
      simp at heq
      subst heq
      split at h
      · exact absurd h (by simp)
      · split at h
        · split at h
          · exact absurd h (by simp)
          · simp only [Except.ok.injEq] at h
            exact h.symm
        · simp only [Except.ok.injEq] at h
          exact h.symm

/-- Destructuring a successful run of `validate_block` into the successes
of its phases. -/
lemma validate_block_ok_destruct (kind : String) (named : Bool) (desc : String)
    (required : Bool) (vald : Option (Namespace → Bool))
    (settings : List (String × ConfigSetting))
    (children : List (String × ConfigBlock)) (b v a : Namespace)
    (hv : (ConfigBlock.mk kind named desc required vald settings
      children).validate_block b = .ok (v, a)) :
    ∃ vA1 vOut bOut,
      checkKeys settings children b.attrs = .ok () ∧
      settingsFold b settings b.attrs = .ok vA1 ∧
      childrenFold children vA1 b.attrs = .ok (vOut, bOut) ∧
      v = Namespace.mk b.name vOut ∧ a = Namespace.mk b.name bOut ∧
      (∀ p, vald = some p → p (Namespace.mk b.name vOut) = true) := by
  rw [ConfigBlock.validate_block] at hv
  split at hv
  · exact absurd hv (by simp)
  · rename_i u hck
    split at hv
    · exact absurd hv (by simp)
    · rename_i vA1 hsf
      split at hv
      · exact absurd hv (by simp)
      · rename_i vOut bOut hcf
        refine ⟨vA1, vOut, bOut, hck, hsf, hcf, ?_⟩
        cases vald with
        | none =>
          simp only [Except.ok.injEq, Prod.mk.injEq] at hv
          exact ⟨hv.1.symm, hv.2.symm, fun p' hp' => absurd hp' (by simp)⟩
        | some p =>
          by_cases hb : p (Namespace.mk b.name vOut) = false
          · simp [hb] at hv
          · simp [hb] at hv
            obtain ⟨h1, h2⟩ := hv
            refine ⟨?_, ?_, ?_⟩
            · first
                | exact h1.symm
                | exact h1
            · first
                | exact h2.symm
                | exact h2
            · intro p' hp'
              rw [← Option.some.inj hp']
              cases hbb : p (Namespace.mk b.name vOut) with
              | true => rfl
              | false => exact absurd hbb hb

/-! ## Claim C10: validated output binds every declared setting -/

/-- C10: for a schema block with distinct setting and child names (as any
block built through `add_setting`/`add_block` is), a successful
`validate_block` output has a key for every declared setting, and a
setting whose raw value is absent (or None) is bound to its declared
default, which is the model's None when no default was declared. -/
theorem validate_block_settings_complete (cb : ConfigBlock) (b v a : Namespace)
    (hnd : ((cb.settings.map Prod.fst) ++ (cb.children.map Prod.fst)).Nodup)
    (hv : cb.validate_block b = .ok (v, a)) :
    ∀ p ∈ cb.settings, hasKey v.attrs p.1 = true ∧
      (b.get p.1 = Value.none → v.attrs.lookup p.1 = some p.2.default) := by
  rcases cb with ⟨kind, named, desc, required, vald, settings, children⟩
  simp only [ConfigBlock.settings, ConfigBlock.children] at hnd ⊢
  obtain ⟨vA1, vOut, bOut, hck, hsf, hcf, hvres, hares, hpred⟩ :=
    validate_block_ok_destruct kind named desc required vald settings children
      b v a hv
  intro p hp
  have hmemS : p.1 ∈ settings.map Prod.fst := List.mem_map_of_mem Prod.fst hp
  have hdisj : p.1 ∉ children.map Prod.fst :=
    fun hc => (List.disjoint_of_nodup_append hnd) hmemS hc
  obtain ⟨hsf1, hsf2⟩ := settingsFold_lookup b settings b.attrs vA1 hsf
  obtain ⟨w, hval, hlook⟩ := hsf2 hnd.of_append_left p hp
  have hpres := (childrenFold_lookup_not_mem children vA1 b.attrs vOut
    bOut hcf p.1 hdisj).1
  have hlookV : v.attrs.lookup p.1 = some w := by
    rw [hvres]
    simpa [Namespace.attrs] using hpres.trans hlook
  constructor
  · simp [hasKey, hlookV]
  · intro hnone
    rw [hnone] at hval
    rw [hlookV, validate_value_none_default p.2 w hval]

/-- C10 witness: a schema with one defaulted setting and one defaultless
setting validated against an empty raw Namespace. -/
theorem validate_block_settings_complete_witness :
    hasKey (Namespace.attrs (Namespace.mk Option.none
      [("x", Value.str "d"), ("y", Value.none)])) "y" = true := by
  have hs := validate_block_settings_complete
    (ConfigBlock.mk "root" false "" false Option.none
      [("x", ⟨"x", "", false, .str "d", [], Option.none, Option.none⟩),
       ("y", ⟨"y", "", false, .none, [], Option.none, Option.none⟩)] [])
    (Namespace.mk Option.none [])
    (Namespace.mk Option.none [("x", Value.str "d"), ("y", Value.none)])
    (Namespace.mk Option.none [])
    (by decide)
    (by simp [ConfigBlock.validate_block, checkKeys, settingsFold, childrenFold,
      ConfigSetting.validate_value, ConfigSetting.convertedOrDefault,
      Namespace.get, Namespace.attrs, Namespace.name, Value.isNone, setKey,
      List.lookup, hasKey])
  exact (hs ("y", ⟨"y", "", false, .none, [], Option.none, Option.none⟩)
    (List.mem_cons_of_mem _ (List.mem_cons_self _ _))).1

/-! ## Namespace.merge (spec section 4.3) and parse_config_files -/

mutual
/-- Modelled from the spec: `Namespace.merge` is called by
`ComfyParser.parse_config_files` (src/comfyparse/parser.py line 92) and
exercised by tests/test_config.py test_merge, but the method itself is
absent from the sources provided; this follows spec section 4.3 word for
word.  It destructively combines `other` into `self` (here: returns the
updated self): keys present only in `other` are copied into `self`; keys
present in both merge recursively when both values are Namespaces, merge
per matching instance name when both are named-block mappings, and are
otherwise overwritten by `other`'s value. -/
def Namespace.merge : Namespace → Namespace → Namespace
  | self, .mk _ battrs => mergeAttrs self battrs
termination_by _ other => (sizeOf other, 0, 0)

/-- Modelled from the spec: the loop of `merge` over `other`'s entries in
order. -/
def mergeAttrs : Namespace → List (String × Value) → Namespace
  | self, [] => self
  | self, (k, v) :: rest => mergeAttrs (mergeOne self k v) rest
termination_by _ l => (sizeOf l, 3, 0)

/-- Modelled from the spec: one key of the merge; the combined value is
written at the key's existing position (or appended when new), as a Python
dict assignment does. -/
def mergeOne (self : Namespace) (k : String) (v : Value) : Namespace :=
  self.set k (mergedValue (self.attrs.lookup k) v)
termination_by (sizeOf v, 3, 0)

/-- Modelled from the spec: how `other`'s value at one key combines with
`self`'s value there (if any): Namespace-with-Namespace merges
recursively, mapping-with-mapping merges per instance name, anything else
is `other`'s value. -/
def mergedValue : Option Value → Value → Value
  | some (.ns x), .ns y => .ns (Namespace.merge x y)
  | some (.dict da), .dict db => .dict (mergeInstances da db)
  | _, v => v
termination_by _ v => (sizeOf v, 2, 0)

/-- Modelled from the spec: the named-block mapping case of `merge`:
instance names present in both sides merge recursively, names present
only in `other` are added. -/
def mergeInstances : List (String × Namespace) → List (String × Namespace) →
    List (String × Namespace)
  | da, [] => da
  | da, (n, nsb) :: rest =>
    if hasKey da n then mergeInstances (replaceInst da n nsb) rest
    else mergeInstances (da ++ [(n, nsb)]) rest
termination_by _ db => (sizeOf db, 3, 0)

/-- Modelled from the spec: in-place update of the matching instance. -/
def replaceInst : List (String × Namespace) → String → Namespace →
    List (String × Namespace)
  | [], _, _ => []
  | (m, x) :: rest, n, nsb =>
    if m = n then (m, Namespace.merge x nsb) :: rest
    else (m, x) :: replaceInst rest n nsb
termination_by da _ nsb => (sizeOf nsb, 1, sizeOf da)
end

/-- `ComfyParser.parse_config_files` (src/comfyparse/parser.py lines
86-93), at the level of already-parsed raw namespaces: the loop starts
from an empty `Namespace()`, merges each parsed source into it
unvalidated, and runs a single validation pass at the end.  Reading and
parsing the files (`parse_config_file(path, validate=False)`) is replaced
by the raw Namespaces those calls produce. -/
def parse_config_files (spec : ConfigBlock) (parsed : List Namespace) :
    Except String Namespace :=
  (spec.validate_block
    (parsed.foldl Namespace.merge (Namespace.mk Option.none []))).map Prod.fst

/-! ## Merge characterization -/

lemma lookup_append {α : Type} (l1 l2 : List (String × α)) (k : String) :
    (l1 ++ l2).lookup k =
      match l1.lookup k with
      | some v => some v
      | Option.none => l2.lookup k := by
  induction l1 with
  | nil => simp [List.lookup]
  | cons p rest ih =>
    obtain ⟨k', v'⟩ := p
    simp only [List.cons_append, List.lookup]
    cases hbe : (k == k') <;> simp [ih]

lemma mergeOne_lookup_self (a : Namespace) (k : String) (v : Value) :
    (mergeOne a k v).attrs.lookup k = some (mergedValue (a.attrs.lookup k) v) := by
  rw [mergeOne]
  simp [Namespace.set, Namespace.attrs, lookup_setKey_self]

lemma mergeOne_lookup_ne (a : Namespace) (k k' : String) (v : Value)
    (h : k' ≠ k) : (mergeOne a k v).attrs.lookup k' = a.attrs.lookup k' := by
  rw [mergeOne]
  simp [Namespace.set, Namespace.attrs, lookup_setKey_ne _ _ _ _ h]

lemma mergeAttrs_lookup : ∀ (l : List (String × Value)),
    (l.map Prod.fst).Nodup → ∀ (a : Namespace) (k : String),
    (mergeAttrs a l).attrs.lookup k =
      match l.lookup k with
      | Option.none => a.attrs.lookup k
      | some v => some (mergedValue (a.attrs.lookup k) v) := by
  intro l
  induction l with
  | nil => intro _ a k; simp [mergeAttrs, List.lookup]
  | cons p rest ih =>
    obtain ⟨k', v'⟩ := p
    intro hnd a k
    simp only [List.map_cons, List.nodup_cons] at hnd
    rw [mergeAttrs, ih hnd.2]
    by_cases hk : k = k'
    · subst hk
      rw [lookup_eq_none rest k hnd.1]
      simp only [List.lookup, beq_self_eq_true]
      rw [mergeOne_lookup_self]
    · have hbe : (k == k') = false := beq_eq_false_iff_ne.mpr hk
      simp only [List.lookup, hbe]
      rw [mergeOne_lookup_ne a k' k v' hk]

lemma merge_lookup (a b : Namespace) (k : String)
    (hnd : (b.attrs.map Prod.fst).Nodup) :
    (a.merge b).attrs.lookup k =
      match b.attrs.lookup k with
      | Option.none => a.attrs.lookup k
      | some v => some (mergedValue (a.attrs.lookup k) v) := by
  rcases b with ⟨nm, battrs⟩
  rw [Namespace.merge]
  exact mergeAttrs_lookup battrs hnd a k

lemma replaceInst_lookup_self (da : List (String × Namespace)) (n : String)
    (nsb x : Namespace) (h : da.lookup n = some x) :
    (replaceInst da n nsb).lookup n = some (x.merge nsb) := by
  induction da with
  | nil => simp [List.lookup] at h
  | cons p rest ih =>
    obtain ⟨m, y⟩ := p
    by_cases hm : m = n
    · subst hm
      simp only [List.lookup, beq_self_eq_true] at h
      simp only [Option.some.injEq] at h
      subst h
      rw [replaceInst]
      simp [List.lookup]
    · have hbe : (n == m) = false := beq_eq_false_iff_ne.mpr (fun hh => hm hh.symm)
      simp only [List.lookup, hbe] at h
      rw [replaceInst]
      simp only [if_neg hm, List.lookup, hbe]
      exact ih h

lemma replaceInst_lookup_ne (da : List (String × Namespace)) (n n' : String)
    (nsb : Namespace) (h : n' ≠ n) :
    (replaceInst da n nsb).lookup n' = da.lookup n' := by
  induction da with
  | nil => rw [replaceInst]
  | cons p rest ih =>
    obtain ⟨m, y⟩ := p
    rw [replaceInst]
    by_cases hm : m = n
    · subst hm
      have hbe : (n' == m) = false := beq_eq_false_iff_ne.mpr h
      simp [List.lookup, hbe]
    · simp only [if_neg hm, List.lookup]
      cases hbe : (n' == m) <;> simp [hbe, ih]

lemma mergeInstances_lookup : ∀ (db : List (String × Namespace)),
    (db.map Prod.fst).Nodup → ∀ (da : List (String × Namespace)) (n : String),
    (mergeInstances da db).lookup n =
      match db.lookup n with
      | Option.none => da.lookup n
      | some y =>
        match da.lookup n with
        | some x => some (x.merge y)
        | Option.none => some y := by
  intro db
  induction db with
  | nil => intro _ da n; simp [mergeInstances, List.lookup]
  | cons p rest ih =>
    obtain ⟨n', nsb⟩ := p
    intro hnd da n
    simp only [List.map_cons, List.nodup_cons] at hnd
    rw [mergeInstances]
    by_cases hin : hasKey da n' = true
    · obtain ⟨x, hx⟩ : ∃ x, da.lookup n' = some x := by
        unfold hasKey at hin
        exact Option.isSome_iff_exists.mp hin
      rw [if_pos hin, ih hnd.2]
      by_cases hn : n = n'
      · subst hn
        rw [lookup_eq_none rest n hnd.1]
        simp only [List.lookup, beq_self_eq_true]
        rw [replaceInst_lookup_self da n nsb x hx, hx]
      · have hbe : (n == n') = false := beq_eq_false_iff_ne.mpr hn
        simp only [List.lookup, hbe]
        rw [replaceInst_lookup_ne da n' n nsb hn]
    · rw [if_neg hin, ih hnd.2]
      have hda : da.lookup n' = Option.none := by
        cases hl : da.lookup n' with
        | none => rfl
        | some x => exact absurd (by simp [hasKey, hl]) hin
      by_cases hn : n = n'
      · subst hn
        rw [lookup_eq_none rest n hnd.1]
        simp only [List.lookup, beq_self_eq_true]
        rw [lookup_append, hda]
        simp [List.lookup]
      · have hbe : (n == n') = false := beq_eq_false_iff_ne.mpr hn
        simp only [List.lookup, hbe]
        rw [lookup_append]
        cases hl : da.lookup n with
        | some x => rfl
        | none => simp [List.lookup, hbe]

/-! ## Claim C1: merge semantics and parse_config_files -/

def mergeExA : Namespace := .mk Option.none
  [("a", .str "1"), ("b", .ns (.mk Option.none [("x", .str "1")]))]

def mergeExB : Namespace := .mk Option.none
  [("b", .ns (.mk Option.none [("x", .str "2"), ("y", .str "3")]))]

def mergeExpected : Namespace := .mk Option.none
  [("a", .str "1"),
   ("b", .ns (.mk Option.none [("x", .str "2"), ("y", .str "3")]))]

/-- C1: merge is right-biased and field-wise.  For namespaces `b` with
distinct keys (as every parsed Namespace has): keys absent from `b` keep
`a`'s value, keys absent from `a` take `b`'s value, a key holding
Namespaces on both sides merges recursively, a key holding instance
mappings on both sides merges per instance name (matching names
recursively, unmatched names of either side preserved), and any other
clash is overwritten by `b`'s value.  The spec's example merge yields
exactly its stated result, and `parse_config_files` folds merge over the
parsed sources starting from an empty Namespace before a single
validation pass. -/
theorem namespace_merge_spec (a b : Namespace) (k : String)
    (hnd : (b.attrs.map Prod.fst).Nodup) :
    (b.attrs.lookup k = Option.none →
      (a.merge b).attrs.lookup k = a.attrs.lookup k) ∧
    (∀ v, b.attrs.lookup k = some v → a.attrs.lookup k = Option.none →
      (a.merge b).attrs.lookup k = some v) ∧
    (∀ x y, a.attrs.lookup k = some (.ns x) → b.attrs.lookup k = some (.ns y) →
      (a.merge b).attrs.lookup k = some (.ns (x.merge y))) ∧
    (∀ da db n, a.attrs.lookup k = some (.dict da) →
      b.attrs.lookup k = some (.dict db) → (db.map Prod.fst).Nodup →
      (a.merge b).attrs.lookup k = some (.dict (mergeInstances da db)) ∧
      (db.lookup n = Option.none → (mergeInstances da db).lookup n = da.lookup n) ∧
      (∀ y, db.lookup n = some y → da.lookup n = Option.none →
        (mergeInstances da db).lookup n = some y) ∧
      (∀ x y, da.lookup n = some x → db.lookup n = some y →
        (mergeInstances da db).lookup n = some (x.merge y))) ∧
    (∀ w v, a.attrs.lookup k = some w → b.attrs.lookup k = some v →
      (∀ x y, ¬(w = .ns x ∧ v = .ns y)) →
      (∀ da db, ¬(w = .dict da ∧ v = .dict db)) →
      (a.merge b).attrs.lookup k = some v) ∧
    mergeExA.merge mergeExB = mergeExpected ∧
    (∀ spec n1 n2, parse_config_files spec [n1, n2] =
      (spec.validate_block
        (((Namespace.mk Option.none []).merge n1).merge n2)).map Prod.fst) := by
  refine ⟨?_, ?_, ?_, ?_, ?_, ?_, ?_⟩
  · intro hb
    rw [merge_lookup a b k hnd, hb]
  · intro v hb ha
    rw [merge_lookup a b k hnd, hb, ha]
    cases v <;> simp [mergedValue]
  · intro x y hx hy
    rw [merge_lookup a b k hnd, hy, hx]
    simp [mergedValue]
  · intro da db n hda hdb hnddb
    refine ⟨?_, ?_, ?_, ?_⟩
    · rw [merge_lookup a b k hnd, hdb, hda]
      simp [mergedValue]
    · intro hn
      rw [mergeInstances_lookup db hnddb da n, hn]
    · intro y hy hn
      rw [mergeInstances_lookup db hnddb da n, hy, hn]
    · intro x y hx hy
      rw [mergeInstances_lookup db hnddb da n, hy, hx]
  · intro w v hw hv hnns hndict
    rw [merge_lookup a b k hnd, hv, hw]
    cases w <;> cases v <;>
      first
        | (exact absurd ⟨rfl, rfl⟩ (hnns _ _))
        | (exact absurd ⟨rfl, rfl⟩ (hndict _ _))
        | simp [mergedValue]
  · simp [mergeExA, mergeExB, mergeExpected, Namespace.merge, mergeAttrs,
      mergeOne, mergedValue, mergeInstances, replaceInst, Namespace.set,
      Namespace.attrs, Namespace.name, setKey, List.lookup, hasKey]
  · intro spec n1 n2
    rfl

/-- C1 witness: the field-wise clauses at the spec's concrete example. -/
theorem namespace_merge_spec_witness :
    (mergeExA.merge mergeExB).attrs.lookup "a" = mergeExA.attrs.lookup "a" :=
  (namespace_merge_spec mergeExA mergeExB "a" (by decide)).1 rfl

/-! ## Claim C2: validate_block and its input -/

mutual
/-- A stored value containing no named-block instance mapping (dict)
anywhere: the in-place writes of config.py line 281 target exactly the
dicts shared between the raw block and its shallow copy. -/
def Value.dictFree : Value → Bool
  | .none => true
  | .str _ => true
  | .vlist l => Value.dictFreeList l
  | .ns n => Namespace.dictFree n
  | .dict _ => false

def Value.dictFreeList : List Value → Bool
  | [] => true
  | v :: rest => v.dictFree && Value.dictFreeList rest

def Namespace.dictFree : Namespace → Bool
  | .mk _ a => Namespace.dictFreeAttrs a

def Namespace.dictFreeAttrs : List (String × Value) → Bool
  | [] => true
  | (_, v) :: rest => v.dictFree && Namespace.dictFreeAttrs rest
end

lemma dictFree_lookup {l : List (String × Value)} {k : String} {v : Value}
    (hf : Namespace.dictFreeAttrs l = true) (h : l.lookup k = some v) :
    v.dictFree = true := by
  induction l with
  | nil => simp [List.lookup] at h
  | cons p rest ih =>
    obtain ⟨k', v'⟩ := p
    simp only [Namespace.dictFreeAttrs, Bool.and_eq_true] at hf
    simp only [List.lookup] at h
    cases hbe : (k == k') with
    | true =>
      rw [hbe] at h
      simp only [Option.some.injEq] at h
      subst h
      exact hf.1
    | false =>
      rw [hbe] at h
      exact ih hf.2 h

/-- The children loop leaves the raw attrs untouched when every raw value
is dict-free, provided every child validation is itself non-mutating. -/
lemma childrenFold_preserves (children : List (String × ConfigBlock))
    (hIH : ∀ q ∈ children, ∀ (ns v' a' : Namespace), ns.dictFree = true →
      ConfigBlock.validate_block q.2 ns = .ok (v', a') → a' = ns) :
    ∀ (vA bA outV outB : List (String × Value)),
    Namespace.dictFreeAttrs bA = true →
    childrenFold children vA bA = .ok (outV, outB) → outB = bA := by
  induction children with
  | nil =>
    intro vA bA outV outB hfree h
    simp only [childrenFold, Except.ok.injEq, Prod.mk.injEq] at h
    exact h.2.symm
  | cons q rest ih =>
    obtain ⟨kind, child⟩ := q
    have hIHrest : ∀ q ∈ rest, ∀ (ns v' a' : Namespace), ns.dictFree = true →
        ConfigBlock.validate_block q.2 ns = .ok (v', a') → a' = ns :=
      fun q hq => hIH q (List.mem_cons_of_mem _ hq)
    intro vA bA outV outB hfree h
    simp only [childrenFold] at h
    split at h
    · split at h
      · exact absurd h (by simp)
      · exact ih hIHrest vA bA outV outB hfree h
    · rename_i d hd
      have := dictFree_lookup hfree hd
      simp [Value.dictFree] at this
    · rename_i inner hinner
      split at h
      · exact absurd h (by simp)
      · rename_i vi ai hvb
        have hfi : inner.dictFree = true := by
          have := dictFree_lookup hfree hinner
          simpa [Value.dictFree] using this
        have hai : ai = inner :=
          hIH (kind, child) (List.mem_cons_self _ _) inner vi ai hfi hvb
        subst hai
        rw [setKey_of_lookup _ _ _ hinner] at h
        exact ih hIHrest _ bA outV outB hfree h
    · exact absurd h (by simp)

lemma validate_block_preserves_aux : ∀ (n : Nat) (cb : ConfigBlock),
    sizeOf cb ≤ n → ∀ (b v a : Namespace), b.dictFree = true →
    cb.validate_block b = .ok (v, a) → a = b := by
  intro n
  induction n with
  | zero =>
    intro cb hle
    exfalso
    rcases cb with ⟨k, nm, d, r, vl, s, c⟩
    simp at hle
  | succ n ih =>
    intro cb hle b v a hfree hv
    rcases cb with ⟨kind, named, desc, required, vald, settings, children⟩
    obtain ⟨vA1, vOut, bOut, hck, hsf, hcf, hvres, hares, hpred⟩ :=
      validate_block_ok_destruct kind named desc required vald settings children
        b v a hv
    have hIH : ∀ q ∈ children, ∀ (ns v' a' : Namespace), ns.dictFree = true →
        ConfigBlock.validate_block q.2 ns = .ok (v', a') → a' = ns := by
      intro q hq ns v' a' hf hvb
      refine ih q.2 ?_ ns v' a' hf hvb
      have h1 : sizeOf q < sizeOf children := List.sizeOf_lt_of_mem hq
      have h2 : sizeOf q.2 < sizeOf q := by
        obtain ⟨q1, q2⟩ := q
        simp
      have h3 : sizeOf children <
          sizeOf (ConfigBlock.mk kind named desc required vald settings children) := by
        simp
      omega
    have hfa : Namespace.dictFreeAttrs b.attrs = true := by
      rcases b with ⟨nm, attrs⟩
      simpa [Namespace.dictFree, Namespace.attrs] using hfree
    have hout : bOut = b.attrs :=
      childrenFold_preserves children hIH vA1 b.attrs vOut bOut hfa hcf
    rw [hares, hout]
    rcases b with ⟨nm, attrs⟩
    rfl

/-- Schema and raw input used by the C2 artifacts: a root block with one
named child block `grp` whose schema declares one optional setting `x`,
validated against a raw tree holding one instance "a" of `grp`. -/
def plainSetting : ConfigSetting := ⟨"x", "", false, .none, [], Option.none, Option.none⟩

def grpChild : ConfigBlock := .mk "grp" true "" false Option.none [("x", plainSetting)] []

def c2schema : ConfigBlock := .mk "root" false "" false Option.none [] [("grp", grpChild)]

def c2raw : Namespace := .mk Option.none [("grp", .dict [("a", .mk (some "a") [])])]

def c2after : Namespace :=
  .mk Option.none [("grp", .dict [("a", .mk (some "a") [("x", Value.none)])])]

/-- C2 counterexample: validating a raw Namespace with a named-block
instance mapping succeeds but mutates the raw input in place: the shared
dict of config.py line 281 now maps the instance name to the validated
child (which gained the key `x`), so the input is not left unchanged. -/
theorem validate_block_mutation_counterexample :
    c2schema.validate_block c2raw = .ok (c2after, c2after) ∧ c2after ≠ c2raw := by
  constructor
  · simp [c2schema, c2raw, c2after, grpChild, plainSetting,
      ConfigBlock.validate_block, checkKeys, settingsFold, childrenFold,
      instancesFold, ConfigSetting.validate_value, ConfigSetting.convertedOrDefault,
      Namespace.get, Namespace.attrs, Namespace.name, Value.isNone, Value.isNs,
      Value.isDict, setKey, List.lookup, hasKey]
  · intro h
    simp [c2after, c2raw] at h

/-- C2 (amended): validation is atomic — it returns a fully converted
Namespace or raises, never a partial result — and for every raw Namespace
containing no named-block instance mapping a successful `validate_block`
leaves the input unchanged; when the raw tree does contain a named-block
instance mapping, that dict is mutated in place through the shallow copy,
its entries being replaced by the validated instances. -/
theorem validate_block_preserves_input (cb : ConfigBlock) (b v a : Namespace)
    (hfree : b.dictFree = true) (hv : cb.validate_block b = .ok (v, a)) : a = b :=
  validate_block_preserves_aux (sizeOf cb) cb le_rfl b v a hfree hv

def plainSchema1 : ConfigBlock :=
  .mk "root" false "" false Option.none [("x", plainSetting)] []

def plainRaw1 : Namespace := .mk Option.none [("x", Value.str "a")]

/-- C2 witness: the amended statement at a dict-free raw Namespace. -/
theorem validate_block_preserves_input_witness :
    (Namespace.mk Option.none [("x", Value.str "a")]) = plainRaw1 :=
  validate_block_preserves_input plainSchema1 plainRaw1
    (Namespace.mk Option.none [("x", Value.str "a")])
    (Namespace.mk Option.none [("x", Value.str "a")])
    (by simp [plainRaw1, Namespace.dictFree, Namespace.dictFreeAttrs, Value.dictFree])
    (by simp [plainSchema1, plainRaw1, plainSetting,
      ConfigBlock.validate_block, checkKeys, settingsFold, childrenFold,
      ConfigSetting.validate_value, ConfigSetting.convertedOrDefault,
      Namespace.get, Namespace.attrs, Namespace.name, Value.isNone, Value.isNs,
      Value.isDict, setKey, List.lookup, hasKey])

/-! ## Claim C6: idempotence of validation

The supporting machinery: a raw Namespace is well-formed when every dict
in it (the attrs of every Namespace) has distinct keys, as every Python
dict does; a schema is plain when its setting and child names are
distinct (as `add_setting`/`add_block` guarantee), no setting declares a
converter, and no default is a Namespace. -/

def keysNodupB : List String → Bool
  | [] => true
  | x :: rest => !(rest.contains x) && keysNodupB rest

lemma keysNodupB_nodup (l : List String) : keysNodupB l = true ↔ l.Nodup := by
  induction l with
  | nil => simp [keysNodupB]
  | cons x rest ih =>
    simp [keysNodupB, ih, List.nodup_cons]

lemma hasKey_iff_mem {α : Type} (l : List (String × α)) (k : String) :
    hasKey l k = true ↔ k ∈ l.map Prod.fst := by
  induction l with
  | nil => simp [hasKey, List.lookup]
  | cons p rest ih =>
    obtain ⟨k', v'⟩ := p
    simp only [hasKey, List.lookup, List.map_cons, List.mem_cons]
    cases hbe : (k == k') with
    | true => simp [(beq_iff_eq ..).mp hbe]
    | false =>
      have : ¬k = k' := by simpa using (beq_eq_false_iff_ne.mp hbe)
      simp [this, ← ih, hasKey]

lemma setKey_nodup {α : Type} (l : List (String × α)) (k : String) (v : α)
    (h : (l.map Prod.fst).Nodup) : ((setKey l k v).map Prod.fst).Nodup := by
  rw [setKey_keys]
  split
  · exact h
  · rename_i hk
    simp [List.nodup_append, h, hk]

/-- A setting with no converter and no Namespace default. -/
def settingPlain (s : ConfigSetting) : Bool :=
  (match s.convert with | Option.none => true | Option.some _ => false) &&
  (match s.default with | Value.ns _ => false | _ => true)

def settingsPlain : List (String × ConfigSetting) → Bool
  | [] => true
  | (_, s) :: rest => settingPlain s && settingsPlain rest

mutual
/-- A schema block with distinct names, converter-free settings, and no
Namespace defaults, recursively. -/
def ConfigBlock.plainSchema : ConfigBlock → Bool
  | .mk _ _ _ _ _ settings children =>
    keysNodupB ((settings.map Prod.fst) ++ (children.map Prod.fst)) &&
    settingsPlain settings && ConfigBlock.plainChildren children

def ConfigBlock.plainChildren : List (String × ConfigBlock) → Bool
  | [] => true
  | (_, c) :: rest => c.plainSchema && ConfigBlock.plainChildren rest
end

mutual
/-- Well-formedness of a raw value: every Namespace and named-block
mapping inside has the unique keys a Python dict guarantees. -/
def Value.wfKeys : Value → Bool
  | .ns n => Namespace.wfKeys n
  | .dict d => Namespace.wfInsts d
  | _ => true

def Namespace.wfInsts : List (String × Namespace) → Bool
  | [] => true
  | (_, n) :: rest => Namespace.wfKeys n && Namespace.wfInsts rest

def Namespace.wfKeys : Namespace → Bool
  | .mk _ attrs => keysNodupB (attrs.map Prod.fst) && Namespace.wfAttrs attrs

def Namespace.wfAttrs : List (String × Value) → Bool
  | [] => true
  | (_, v) :: rest => v.wfKeys && Namespace.wfAttrs rest
end

lemma settingsPlain_mem {settings : List (String × ConfigSetting)}
    (h : settingsPlain settings = true) :
    ∀ q ∈ settings, settingPlain q.2 = true := by
  induction settings with
  | nil => simp
  | cons p rest ih =>
    obtain ⟨k, s⟩ := p
    simp only [settingsPlain, Bool.and_eq_true] at h
    intro q hq
    rcases List.mem_cons.mp hq with rfl | hmem
    · exact h.1
    · exact ih h.2 q hmem

lemma plainChildren_mem {children : List (String × ConfigBlock)}
    (h : ConfigBlock.plainChildren children = true) :
    ∀ q ∈ children, ConfigBlock.plainSchema q.2 = true := by
  induction children with
  | nil => simp
  | cons p rest ih =>
    obtain ⟨k, c⟩ := p
    rw [ConfigBlock.plainChildren] at h
    simp only [Bool.and_eq_true] at h
    intro q hq
    rcases List.mem_cons.mp hq with rfl | hmem
    · exact h.1
    · exact ih h.2 q hmem

lemma wfAttrs_lookup {l : List (String × Value)} {k : String} {v : Value}
    (hf : Namespace.wfAttrs l = true) (h : l.lookup k = some v) :
    v.wfKeys = true := by
  induction l with
  | nil => simp [List.lookup] at h
  | cons p rest ih =>
    obtain ⟨k', v'⟩ := p
    rw [Namespace.wfAttrs] at hf
    simp only [Bool.and_eq_true] at hf
    simp only [List.lookup] at h
    cases hbe : (k == k') with
    | true =>
      rw [hbe] at h
      simp only [Option.some.injEq] at h
      subst h
      exact hf.1
    | false =>
      rw [hbe] at h
      exact ih hf.2 h

lemma wfInsts_mem {d : List (String × Namespace)}
    (h : Namespace.wfInsts d = true) : ∀ q ∈ d, Namespace.wfKeys q.2 = true := by
  induction d with
  | nil => simp
  | cons p rest ih =>
    obtain ⟨k, n⟩ := p
    rw [Namespace.wfInsts] at h
    simp only [Bool.and_eq_true] at h
    intro q hq
    rcases List.mem_cons.mp hq with rfl | hmem
    · exact h.1
    · exact ih h.2 q hmem

lemma bool_of_not_true {b : Bool} (h : ¬b = true) : b = false := by
  cases b
  · rfl
  · exact absurd rfl h

/-- The key checks of validate_block succeed exactly when every raw entry
is a declared name with a shape matching its declaration. -/
lemma checkKeys_ok_iff (settings : List (String × ConfigSetting))
    (children : List (String × ConfigBlock)) :
    ∀ l : List (String × Value), checkKeys settings children l = .ok () ↔
      ∀ q ∈ l, (hasKey settings q.1 = true ∨ hasKey children q.1 = true) ∧
        (hasKey settings q.1 = true → Value.isNs q.2 = false) ∧
        (hasKey children q.1 = true → (Value.isNs q.2 || Value.isDict q.2) = true) := by
  intro l
  induction l with
  | nil => simp [checkKeys]
  | cons p rest ih =>
    obtain ⟨key, v⟩ := p
    rw [checkKeys]
    by_cases h1 : (!hasKey settings key && !hasKey children key) = true
    · rw [if_pos h1]
      simp only [Bool.and_eq_true, Bool.not_eq_true'] at h1
      constructor
      · intro h
        exact absurd h (by simp)
      · intro hall
        rcases (hall (key, v) (List.mem_cons_self _ _)).1 with hs | hc
        · rw [h1.1] at hs
          exact absurd hs (by simp)
        · rw [h1.2] at hc
          exact absurd hc (by simp)
    · rw [if_neg h1]
      by_cases h2 : (hasKey settings key && Value.isNs v) = true
      · rw [if_pos h2]
        simp only [Bool.and_eq_true] at h2
        constructor
        · intro h
          exact absurd h (by simp)
        · intro hall
          have := (hall (key, v) (List.mem_cons_self _ _)).2.1 h2.1
          rw [h2.2] at this
          exact absurd this (by simp)
      · rw [if_neg h2]
        by_cases h3 : (hasKey children key && !(Value.isNs v || Value.isDict v)) = true
        · rw [if_pos h3]
          simp only [Bool.and_eq_true, Bool.not_eq_true'] at h3
          constructor
          · intro h
            exact absurd h (by simp)
          · intro hall
            have := (hall (key, v) (List.mem_cons_self _ _)).2.2 h3.1
            rw [h3.2] at this
            exact absurd this (by simp)
        · rw [if_neg h3]
          rw [ih]
          constructor
          · intro hrest q hq
            rcases List.mem_cons.mp hq with rfl | hmem
            · have h1' := bool_of_not_true h1
              have h2' := bool_of_not_true h2
              have h3' := bool_of_not_true h3
              refine ⟨?_, ?_, ?_⟩
              · by_cases hs : hasKey settings key = true
                · exact Or.inl hs
                · have hs' := bool_of_not_true hs
                  right
                  rw [hs'] at h1'
                  simpa using h1'
              · intro hs
                rw [hs] at h2'
                simpa using h2'
              · intro hc
                rw [hc] at h3'
                simp only [Bool.true_and] at h3'
                cases hb : (v.isNs || v.isDict) with
                | false => rw [hb] at h3'; simp at h3'
                | true => rfl
            · exact hrest q hmem
          · intro hall q hq
            exact hall q (List.mem_cons_of_mem _ hq)

lemma Namespace.mk_name_attrs (n : Namespace) : Namespace.mk n.name n.attrs = n := by
  cases n
  rfl

lemma wfKeys_destruct {b : Namespace} (h : b.wfKeys = true) :
    (b.attrs.map Prod.fst).Nodup ∧ Namespace.wfAttrs b.attrs = true := by
  rcases b with ⟨nm, attrs⟩
  rw [Namespace.wfKeys] at h
  simp only [Bool.and_eq_true] at h
  exact ⟨(keysNodupB_nodup _).mp h.1, h.2⟩

lemma settingPlain_convert {s : ConfigSetting} (h : settingPlain s = true) :
    s.convert = Option.none := by
  unfold settingPlain at h
  cases hc : s.convert with
  | none => rfl
  | some f =>
    rw [hc] at h
    simp at h

lemma settingPlain_default {s : ConfigSetting} (h : settingPlain s = true) :
    s.default.isNs = false := by
  unfold settingPlain at h
  cases hd : s.default with
  | ns m =>
    rw [hd] at h
    simp at h
  | none => rfl
  | str x => rfl
  | vlist l => rfl
  | dict d => rfl

/-- With no converter declared, lines 117-125 of config.py reduce to: the
raw value if one was given, the default otherwise. -/
lemma convertedOrDefault_none {s : ConfigSetting} (hc : s.convert = Option.none)
    (raw : Value) :
    s.convertedOrDefault raw =
      .ok (if raw.isNone = true then s.default else raw) := by
  unfold ConfigSetting.convertedOrDefault
  rw [hc]
  cases hn : raw.isNone with
  | true => simp
  | false => simp

/-- Inverting a successful converter-free `validate_value` run. -/
lemma validate_value_ok_inv {s : ConfigSetting} {raw w : Value}
    (hc : s.convert = Option.none) (h : s.validate_value raw = .ok w) :
    (s.required && raw.isNone) = false ∧
    w = (if raw.isNone = true then s.default else raw) ∧
    (!s.choices.isEmpty && !(s.choices.any (fun c => Value.beq w c))) = false ∧
    (∀ p, s.validate = some p → p w = true) := by
  simp only [ConfigSetting.validate_value, convertedOrDefault_none hc] at h
  split at h
  · exact absurd h (by simp)
  · rename_i hr
    refine ⟨bool_of_not_true hr, ?_⟩
    generalize hvx : (if raw.isNone = true then s.default else raw) = vx at h ⊢
    split at h
    · exact absurd h (by simp)
    · rename_i hch
      split at h
      · rename_i p hp
        split at h
        · exact absurd h (by simp)
        · rename_i hpv
          simp only [Except.ok.injEq] at h
          subst h
          refine ⟨rfl, bool_of_not_true hch, ?_⟩
          intro p' hp'
          rw [hp] at hp'
          rw [← Option.some.inj hp']
          cases hb : p vx with
          | true => rfl
          | false => exact absurd hb hpv
      · rename_i hp
        simp only [Except.ok.injEq] at h
        subst h
        exact ⟨rfl, bool_of_not_true hch, fun p' hp' => absurd hp' (by simp [hp])⟩

/-- Assembling a successful converter-free `validate_value` run. -/
lemma validate_value_ok_construct {s : ConfigSetting} {raw : Value}
    (hc : s.convert = Option.none)
    (hr : (s.required && raw.isNone) = false)
    (hch : (!s.choices.isEmpty && !(s.choices.any (fun c =>
      Value.beq (if raw.isNone = true then s.default else raw) c))) = false)
    (hp : ∀ p, s.validate = some p →
      p (if raw.isNone = true then s.default else raw) = true) :
    s.validate_value raw = .ok (if raw.isNone = true then s.default else raw) := by
  cases hv : s.validate with
  | none =>
    simp only [ConfigSetting.validate_value, convertedOrDefault_none hc, hv, hr, hch,
      Bool.false_eq_true, if_false]
  | some p =>
    simp only [ConfigSetting.validate_value, convertedOrDefault_none hc, hv, hr, hch,
      Bool.false_eq_true, if_false, hp p hv, Bool.true_eq_false]

/-- A value accepted by a converter-free setting is accepted again
unchanged: re-validating the validated value is the identity. -/
lemma validate_value_idem {s : ConfigSetting} {raw w : Value}
    (hs : settingPlain s = true) (h : s.validate_value raw = .ok w) :
    s.validate_value w = .ok w := by
  have hc := settingPlain_convert hs
  obtain ⟨hr, hw, hch, hp⟩ := validate_value_ok_inv hc h
  have hkey : (if w.isNone = true then s.default else w) = w := by
    by_cases hn : raw.isNone = true
    · rw [if_pos hn] at hw
      subst hw
      split <;> rfl
    · rw [if_neg hn] at hw
      subst hw
      rw [if_neg hn]
  have hr2 : (s.required && w.isNone) = false := by
    by_cases hn : raw.isNone = true
    · have hreq : s.required = false := by
        rw [hn] at hr
        simpa using hr
      simp [hreq]
    · rw [if_neg hn] at hw
      subst hw
      exact hr
  have hres := validate_value_ok_construct hc hr2
    (by rw [hkey]; exact hch) (by rw [hkey]; exact hp)
  rw [hkey] at hres
  exact hres

/-- A converter-free setting whose raw value is not a Namespace (and whose
default is not one either) never validates to a Namespace. -/
lemma validate_value_not_ns {s : ConfigSetting} {raw w : Value}
    (hs : settingPlain s = true) (hraw : raw.isNs = false)
    (h : s.validate_value raw = .ok w) : w.isNs = false := by
  obtain ⟨_, hw, _, _⟩ := validate_value_ok_inv (settingPlain_convert hs) h
  by_cases hn : raw.isNone = true
  · rw [if_pos hn] at hw
    rw [hw]
    exact settingPlain_default hs
  · rw [if_neg hn] at hw
    rw [hw]
    exact hraw

/-- The settings loop is the identity on an accumulator already holding,
for every declared setting, a value its declaration re-validates to
itself. -/
lemma settingsFold_fixpoint (block : Namespace) :
    ∀ (settings : List (String × ConfigSetting)) (acc : List (String × Value)),
    (∀ q ∈ settings, ∃ w, q.2.validate_value (block.get q.1) = .ok w ∧
      acc.lookup q.1 = some w) →
    settingsFold block settings acc = .ok acc := by
  intro settings
  induction settings with
  | nil => intro acc _; rfl
  | cons q rest ih =>
    obtain ⟨name, s⟩ := q
    intro acc hall
    obtain ⟨w, hval, hacc⟩ := hall (name, s) (List.mem_cons_self _ _)
    simp only [settingsFold, hval]
    rw [setKey_of_lookup _ _ _ hacc]
    exact ih acc (fun q hq => hall q (List.mem_cons_of_mem _ hq))

/-- The settings loop preserves distinctness of the accumulator's keys. -/
lemma settingsFold_nodup (block : Namespace) :
    ∀ (settings : List (String × ConfigSetting)) (acc out : List (String × Value)),
    settingsFold block settings acc = .ok out →
    (acc.map Prod.fst).Nodup → (out.map Prod.fst).Nodup := by
  intro settings
  induction settings with
  | nil =>
    intro acc out h hnd
    simp only [settingsFold, Except.ok.injEq] at h
    subst h
    exact hnd
  | cons q rest ih =>
    obtain ⟨name, s⟩ := q
    intro acc out h hnd
    simp only [settingsFold] at h
    split at h
    · exact absurd h (by simp)
    · rename_i w hval
      exact ih _ out h (setKey_nodup _ _ _ hnd)

/-- The children loop preserves distinctness of the validated keys. -/
lemma childrenFold_nodup :
    ∀ (children : List (String × ConfigBlock)) (vA bA outV outB : List (String × Value)),
    childrenFold children vA bA = .ok (outV, outB) →
    (vA.map Prod.fst).Nodup → (outV.map Prod.fst).Nodup := by
  intro children
  induction children with
  | nil =>
    intro vA bA outV outB h hnd
    simp only [childrenFold, Except.ok.injEq, Prod.mk.injEq] at h
    obtain ⟨h1, h2⟩ := h
    subst h1
    exact hnd
  | cons q rest ih =>
    obtain ⟨kind, child⟩ := q
    intro vA bA outV outB h hnd
    simp only [childrenFold] at h
    split at h
    · split at h
      · exact absurd h (by simp)
      · exact ih vA bA outV outB h hnd
    · rename_i d hd
      split at h
      · exact absurd h (by simp)
      · rename_i newD hinst
        exact ih _ _ outV outB h (setKey_nodup _ _ _ hnd)
    · rename_i inner hinner
      split at h
      · exact absurd h (by simp)
      · rename_i pr hpr
        exact ih _ _ outV outB h (setKey_nodup _ _ _ hnd)
    · exact absurd h (by simp)

/-- Every entry of the dict produced by the instances loop is the
validated image of a raw instance under the same key. -/
lemma instancesFold_results (child : ConfigBlock) :
    ∀ (d newD : List (String × Namespace)),
    instancesFold child d = .ok newD →
    ∀ q ∈ newD, ∃ raw ai, (q.1, raw) ∈ d ∧
      child.validate_block raw = .ok (q.2, ai) := by
  intro d
  induction d with
  | nil =>
    intro newD h q hq
    simp only [instancesFold, Except.ok.injEq] at h
    subst h
    simp at hq
  | cons p rest ih =>
    obtain ⟨key, inst⟩ := p
    intro newD h q hq
    simp only [instancesFold] at h
    split at h
    · exact absurd h (by simp)
    · rename_i vi ai2 hvb
      split at h
      · exact absurd h (by simp)
      · rename_i tail htail
        simp only [Except.ok.injEq] at h
        subst h
        rcases List.mem_cons.mp hq with rfl | hmem
        · exact ⟨inst, ai2, List.mem_cons_self _ _, hvb⟩
        · obtain ⟨raw, ai, hmem', hv'⟩ := ih tail htail q hmem
          exact ⟨raw, ai, List.mem_cons_of_mem _ hmem', hv'⟩

/-- The instances loop is the identity on a dict whose every instance
validates to itself. -/
lemma instancesFold_fixpoint (child : ConfigBlock) :
    ∀ (d : List (String × Namespace)),
    (∀ q ∈ d, ∃ a2, child.validate_block q.2 = .ok (q.2, a2)) →
    instancesFold child d = .ok d := by
  intro d
  induction d with
  | nil => intro _; rw [instancesFold]
  | cons p rest ih =>
    obtain ⟨key, inst⟩ := p
    intro hall
    obtain ⟨a2, hv⟩ := hall (key, inst) (List.mem_cons_self _ _)
    simp only [instancesFold, hv,
      ih (fun q hq => hall q (List.mem_cons_of_mem _ hq))]

/-- What a successful children loop wrote at each declared kind, as a
function of the raw value found there. -/
lemma childrenFold_results :
    ∀ (children : List (String × ConfigBlock)) (vA bA outV outB : List (String × Value)),
    (children.map Prod.fst).Nodup →
    childrenFold children vA bA = .ok (outV, outB) →
    ∀ q ∈ children,
      (bA.lookup q.1 = Option.none → q.2.required = false ∧
        outV.lookup q.1 = vA.lookup q.1) ∧
      (∀ d, bA.lookup q.1 = some (Value.dict d) → ∃ newD,
        instancesFold q.2 d = .ok newD ∧ outV.lookup q.1 = some (Value.dict newD)) ∧
      (∀ m, bA.lookup q.1 = some (Value.ns m) → ∃ vi ai,
        q.2.validate_block m = .ok (vi, ai) ∧ outV.lookup q.1 = some (Value.ns vi)) := by
  intro children
  induction children with
  | nil =>
    intro vA bA outV outB _ h q hq
    simp at hq
  | cons p rest ih =>
    obtain ⟨kind, child⟩ := p
    intro vA bA outV outB hnd h q hq
    simp only [List.map_cons, List.nodup_cons] at hnd
    simp only [childrenFold] at h
    rcases List.mem_cons.mp hq with rfl | hmem
    · have hknotin : kind ∉ rest.map Prod.fst := hnd.1
      split at h
      · rename_i hb
        split at h
        · exact absurd h (by simp)
        · rename_i hreq
          refine ⟨fun _ => ⟨bool_of_not_true hreq, ?_⟩, ?_, ?_⟩
          · exact (childrenFold_lookup_not_mem rest vA bA outV outB h kind hknotin).1
          · intro d hd
            rw [hb] at hd
            exact absurd hd (by simp)
          · intro m hm
            rw [hb] at hm
            exact absurd hm (by simp)
      · rename_i d hd
        split at h
        · exact absurd h (by simp)
        · rename_i newD hinst
          have hout : outV.lookup kind = some (Value.dict newD) := by
            have h2 := (childrenFold_lookup_not_mem rest _ _ outV outB h kind hknotin).1
            rw [h2, lookup_setKey_self]
          refine ⟨?_, ?_, ?_⟩
          · intro hb
            rw [hb] at hd
            exact absurd hd (by simp)
          · intro d' hd'
            rw [hd] at hd'
            simp only [Option.some.injEq, Value.dict.injEq] at hd'
            subst hd'
            exact ⟨newD, hinst, hout⟩
          · intro m hm
            rw [hd] at hm
            exact absurd hm (by simp)
      · rename_i inner hinner
        split at h
        · exact absurd h (by simp)
        · rename_i vi ai hvb
          have hout : outV.lookup kind = some (Value.ns vi) := by
            have h2 := (childrenFold_lookup_not_mem rest _ _ outV outB h kind hknotin).1
            rw [h2, lookup_setKey_self]
          refine ⟨?_, ?_, ?_⟩
          · intro hb
            rw [hb] at hinner
            exact absurd hinner (by simp)
          · intro d' hd'
            rw [hinner] at hd'
            exact absurd hd' (by simp)
          · intro m hm
            rw [hinner] at hm
            simp only [Option.some.injEq, Value.ns.injEq] at hm
            subst hm
            exact ⟨vi, ai, hvb, hout⟩
      · exact absurd h (by simp)
    · have hq1 : q.1 ≠ kind := by
        intro hh
        exact hnd.1 (hh ▸ List.mem_map_of_mem Prod.fst hmem)
      split at h
      · rename_i hb
        split at h
        · exact absurd h (by simp)
        · exact ih vA bA outV outB hnd.2 h q hmem
      · rename_i d hd
        split at h
        · exact absurd h (by simp)
        · rename_i newD hinst
          have hres := ih _ _ outV outB hnd.2 h q hmem
          rw [lookup_setKey_ne _ _ _ _ hq1, lookup_setKey_ne _ _ _ _ hq1] at hres
          exact hres
      · rename_i inner hinner
        split at h
        · exact absurd h (by simp)
        · rename_i vi ai hvb
          have hres := ih _ _ outV outB hnd.2 h q hmem
          rw [lookup_setKey_ne _ _ _ _ hq1, lookup_setKey_ne _ _ _ _ hq1] at hres
          exact hres
      · exact absurd h (by simp)

/-- The children loop is the identity on its validated accumulator when
every declared kind either is absent and optional, or holds an
already-validated dict or Namespace. -/
lemma childrenFold_fixpoint :
    ∀ (children : List (String × ConfigBlock)) (vA bA : List (String × Value)),
    (children.map Prod.fst).Nodup →
    (∀ q ∈ children, bA.lookup q.1 = vA.lookup q.1) →
    (∀ q ∈ children,
      (vA.lookup q.1 = Option.none → q.2.required = false) ∧
      (∀ d, vA.lookup q.1 = some (Value.dict d) →
        ∀ r ∈ d, ∃ a2, q.2.validate_block r.2 = .ok (r.2, a2)) ∧
      (∀ m, vA.lookup q.1 = some (Value.ns m) →
        ∃ a2, q.2.validate_block m = .ok (m, a2)) ∧
      (∀ w, vA.lookup q.1 = some w → (w.isNs || w.isDict) = true)) →
    ∃ outB, childrenFold children vA bA = .ok (vA, outB) := by
  intro children
  induction children with
  | nil =>
    intro vA bA _ _ _
    exact ⟨bA, by rw [childrenFold]⟩
  | cons p rest ih =>
    obtain ⟨kind, child⟩ := p
    intro vA bA hnd hagree hall
    simp only [List.map_cons, List.nodup_cons] at hnd
    have hb := hagree (kind, child) (List.mem_cons_self _ _)
    obtain ⟨hnone, hdict, hns, hshape⟩ := hall (kind, child) (List.mem_cons_self _ _)
    cases hv : vA.lookup kind with
    | none =>
      have hreq := hnone hv
      obtain ⟨outB, hrec⟩ := ih vA bA hnd.2
        (fun q hq => hagree q (List.mem_cons_of_mem _ hq))
        (fun q hq => hall q (List.mem_cons_of_mem _ hq))
      refine ⟨outB, ?_⟩
      simp only [childrenFold, hb, hv, hreq, Bool.false_eq_true, if_false]
      exact hrec
    | some w =>
      have hsh := hshape w hv
      cases w with
      | none => simp [Value.isNs, Value.isDict] at hsh
      | str s2 => simp [Value.isNs, Value.isDict] at hsh
      | vlist l2 => simp [Value.isNs, Value.isDict] at hsh
      | ns m =>
        obtain ⟨a2, hvb⟩ := hns m hv
        have hset : setKey vA kind (Value.ns m) = vA := setKey_of_lookup _ _ _ hv
        obtain ⟨outB, hrec⟩ := ih vA (setKey bA kind (Value.ns a2)) hnd.2
          (fun q hq => by
            have hq1 : q.1 ≠ kind := fun hh =>
              hnd.1 (hh ▸ List.mem_map_of_mem Prod.fst hq)
            rw [lookup_setKey_ne _ _ _ _ hq1]
            exact hagree q (List.mem_cons_of_mem _ hq))
          (fun q hq => hall q (List.mem_cons_of_mem _ hq))
        refine ⟨outB, ?_⟩
        simp only [childrenFold, hb, hv, hvb]
        rw [hset]
        exact hrec
      | dict d =>
        have hif := instancesFold_fixpoint child d (hdict d hv)
        have hset : setKey vA kind (Value.dict d) = vA := setKey_of_lookup _ _ _ hv
        obtain ⟨outB, hrec⟩ := ih vA (setKey bA kind (Value.dict d)) hnd.2
          (fun q hq => by
            have hq1 : q.1 ≠ kind := fun hh =>
              hnd.1 (hh ▸ List.mem_map_of_mem Prod.fst hq)
            rw [lookup_setKey_ne _ _ _ _ hq1]
            exact hagree q (List.mem_cons_of_mem _ hq))
          (fun q hq => hall q (List.mem_cons_of_mem _ hq))
        refine ⟨outB, ?_⟩
        simp only [childrenFold, hb, hv, hif]
        rw [hset]
        exact hrec

/-- Assembling a successful run of `validate_block` from the successes of
its phases (converse of `validate_block_ok_destruct`). -/
lemma validate_block_ok_construct (kind : String) (named : Bool) (desc : String)
    (required : Bool) (vald : Option (Namespace → Bool))
    (settings : List (String × ConfigSetting))
    (children : List (String × ConfigBlock)) (b : Namespace)
    (vA1 vOut bOut : List (String × Value))
    (hck : checkKeys settings children b.attrs = .ok ())
    (hsf : settingsFold b settings b.attrs = .ok vA1)
    (hcf : childrenFold children vA1 b.attrs = .ok (vOut, bOut))
    (hpred : ∀ p, vald = some p → p (Namespace.mk b.name vOut) = true) :
    (ConfigBlock.mk kind named desc required vald settings children).validate_block b =
      .ok (Namespace.mk b.name vOut, Namespace.mk b.name bOut) := by
  rw [ConfigBlock.validate_block]
  simp only [hck, hsf, hcf]
  cases vald with
  | none => rfl
  | some p => simp [hpred p rfl]

lemma validate_block_idem_aux : ∀ (n : Nat) (cb : ConfigBlock),
    sizeOf cb ≤ n → ∀ (b v a : Namespace), cb.plainSchema = true →
    b.wfKeys = true → cb.validate_block b = .ok (v, a) →
    ∃ a2, cb.validate_block v = .ok (v, a2) := by
  intro n
  induction n with
  | zero =>
    intro cb hle
    exfalso
    rcases cb with ⟨k, nm, d, r, vl, s, c⟩
    simp at hle
  | succ n ih =>
    intro cb hle b v a hplain hwf hv
    rcases cb with ⟨kind, named, desc, required, vald, settings, children⟩
    obtain ⟨vA1, vOut, bOut, hck, hsf, hcf, hvres, hares, hpred⟩ :=
      validate_block_ok_destruct kind named desc required vald settings children b v a hv
    rw [ConfigBlock.plainSchema] at hplain
    simp only [Bool.and_eq_true] at hplain
    obtain ⟨⟨hkeys, hsplain⟩, hcplain⟩ := hplain
    have hndAll : ((settings.map Prod.fst) ++ (children.map Prod.fst)).Nodup :=
      (keysNodupB_nodup _).mp hkeys
    have hndS : (settings.map Prod.fst).Nodup := hndAll.of_append_left
    have hndC : (children.map Prod.fst).Nodup := hndAll.of_append_right
    have hdisj : ∀ k, k ∈ settings.map Prod.fst → k ∉ children.map Prod.fst :=
      fun k hs hc => (List.disjoint_of_nodup_append hndAll) hs hc
    obtain ⟨hbnd, hbwfa⟩ := wfKeys_destruct hwf
    have hsp := settingsPlain_mem hsplain
    have hckAll := (checkKeys_ok_iff settings children b.attrs).mp hck
    obtain ⟨hsf1, hsf2⟩ := settingsFold_lookup b settings b.attrs vA1 hsf
    have hcfpres := childrenFold_lookup_not_mem children vA1 b.attrs vOut bOut hcf
    have hcres := childrenFold_results children vA1 b.attrs vOut bOut hndC hcf
    have hnd1 : (vA1.map Prod.fst).Nodup := settingsFold_nodup b settings b.attrs vA1 hsf hbnd
    have hndV : (vOut.map Prod.fst).Nodup :=
      childrenFold_nodup children vA1 b.attrs vOut bOut hcf hnd1
    have hIHsize : ∀ q ∈ children, sizeOf (q : String × ConfigBlock).2 ≤ n := by
      intro q hq
      have h1 : sizeOf q < sizeOf children := List.sizeOf_lt_of_mem hq
      have h2 : sizeOf q.2 < sizeOf q := by
        obtain ⟨q1, q2⟩ := q
        simp
      have h3 : sizeOf children <
          sizeOf (ConfigBlock.mk kind named desc required vald settings children) := by
        simp
      omega
    have hsetfact : ∀ q ∈ settings, ∃ w, q.2.validate_value (b.get q.1) = .ok w ∧
        vOut.lookup q.1 = some w := by
      intro q hq
      obtain ⟨w, hval, hlk⟩ := hsf2 hndS q hq
      refine ⟨w, hval, ?_⟩
      rw [(hcfpres q.1 (hdisj q.1 (List.mem_map_of_mem Prod.fst hq))).1]
      exact hlk
    have hck2 : checkKeys settings children vOut = .ok () := by
      rw [checkKeys_ok_iff]
      intro q hq
      obtain ⟨qk, qv⟩ := q
      have hlkq : vOut.lookup qk = some qv := mem_lookup_of_nodup hndV hq
      by_cases hqs : qk ∈ settings.map Prod.fst
      · have hqc : qk ∉ children.map Prod.fst := hdisj qk hqs
        refine ⟨Or.inl ((hasKey_iff_mem _ _).mpr hqs), fun _ => ?_, fun hc =>
          absurd ((hasKey_iff_mem _ _).mp hc) hqc⟩
        have hhk : hasKey settings qk = true := (hasKey_iff_mem _ _).mpr hqs
        cases hsv : settings.lookup qk with
        | none => simp [hasKey, hsv] at hhk
        | some sv =>
          have hmemS : (qk, sv) ∈ settings := lookup_mem hsv
          obtain ⟨w, hval, hlkw⟩ := hsetfact (qk, sv) hmemS
          have hqv : qv = w := by
            rw [hlkq] at hlkw
            exact Option.some.inj hlkw
          rw [hqv]
          refine validate_value_not_ns (hsp (qk, sv) hmemS) ?_ hval
          cases hbq : b.attrs.lookup qk with
          | none => simp [Namespace.get, hbq, Value.isNs]
          | some rv =>
            have hmemB : (qk, rv) ∈ b.attrs := lookup_mem hbq
            have hns := (hckAll (qk, rv) hmemB).2.1 hhk
            simpa [Namespace.get, hbq] using hns
      · by_cases hqc : qk ∈ children.map Prod.fst
        · have hhk : hasKey children qk = true := (hasKey_iff_mem _ _).mpr hqc
          refine ⟨Or.inr hhk, fun hs =>
            absurd ((hasKey_iff_mem _ _).mp hs) hqs, fun _ => ?_⟩
          cases hcv : children.lookup qk with
          | none => simp [hasKey, hcv] at hhk
          | some child =>
            have hmemC : (qk, child) ∈ children := lookup_mem hcv
            have hres := hcres (qk, child) hmemC
            have hpres1 : vA1.lookup qk = b.attrs.lookup qk := hsf1 qk hqs
            cases hbq : b.attrs.lookup qk with
            | none =>
              have h1 := (hres.1 hbq).2
              rw [hlkq, hpres1, hbq] at h1
              exact absurd h1 (by simp)
            | some rv =>
              have hmemB : (qk, rv) ∈ b.attrs := lookup_mem hbq
              have hshB := (hckAll (qk, rv) hmemB).2.2 hhk
              cases rv with
              | none => simp [Value.isNs, Value.isDict] at hshB
              | str s2 => simp [Value.isNs, Value.isDict] at hshB
              | vlist l2 => simp [Value.isNs, Value.isDict] at hshB
              | ns m =>
                obtain ⟨vi, ai, hvb, hout⟩ := hres.2.2 m hbq
                rw [hlkq] at hout
                rw [Option.some.inj hout]
                simp [Value.isNs]
              | dict d0 =>
                obtain ⟨newD, hif, hout⟩ := hres.2.1 d0 hbq
                rw [hlkq] at hout
                rw [Option.some.inj hout]
                simp [Value.isDict]
        · have h1 : vOut.lookup qk = vA1.lookup qk := (hcfpres qk hqc).1
          have h2 : vA1.lookup qk = b.attrs.lookup qk := hsf1 qk hqs
          have hbq : b.attrs.lookup qk = some qv := by rw [← h2, ← h1, hlkq]
          have hmemB : (qk, qv) ∈ b.attrs := lookup_mem hbq
          rcases (hckAll (qk, qv) hmemB).1 with hs | hc
          · exact absurd ((hasKey_iff_mem _ _).mp hs) hqs
          · exact absurd ((hasKey_iff_mem _ _).mp hc) hqc
    have hsf2run : settingsFold (Namespace.mk b.name vOut) settings vOut = .ok vOut := by
      apply settingsFold_fixpoint
      intro q hq
      obtain ⟨w, hval, hlkw⟩ := hsetfact q hq
      refine ⟨w, ?_, hlkw⟩
      have hget : (Namespace.mk b.name vOut).get q.1 = w := by
        simp [Namespace.get, Namespace.attrs, hlkw]
      rw [hget]
      exact validate_value_idem (hsp q hq) hval
    have hcf2run : ∃ outB2, childrenFold children vOut vOut = .ok (vOut, outB2) := by
      apply childrenFold_fixpoint children vOut vOut hndC (fun q hq => rfl)
      intro q hq
      obtain ⟨qk, child⟩ := q
      have hmemk : qk ∈ children.map Prod.fst := List.mem_map_of_mem Prod.fst hq
      have hhk : hasKey children qk = true := (hasKey_iff_mem _ _).mpr hmemk
      have hres := hcres (qk, child) hq
      have hpres1 : vA1.lookup qk = b.attrs.lookup qk :=
        hsf1 qk (fun hs => hdisj qk hs hmemk)
      have hplainC : child.plainSchema = true := plainChildren_mem hcplain (qk, child) hq
      have hlt : sizeOf child ≤ n := hIHsize (qk, child) hq
      cases hbq : b.attrs.lookup qk with
      | none =>
        have h1 := hres.1 hbq
        refine ⟨fun _ => h1.1, ?_, ?_, ?_⟩
        · intro d hd
          rw [h1.2, hpres1, hbq] at hd
          exact absurd hd (by simp)
        · intro m hm
          rw [h1.2, hpres1, hbq] at hm
          exact absurd hm (by simp)
        · intro w hw
          rw [h1.2, hpres1, hbq] at hw
          exact absurd hw (by simp)
      | some rv =>
        have hmemB : (qk, rv) ∈ b.attrs := lookup_mem hbq
        have hshB := (hckAll (qk, rv) hmemB).2.2 hhk
        cases rv with
        | none => simp [Value.isNs, Value.isDict] at hshB
        | str s2 => simp [Value.isNs, Value.isDict] at hshB
        | vlist l2 => simp [Value.isNs, Value.isDict] at hshB
        | ns m =>
          obtain ⟨vi, ai, hvb, hout⟩ := hres.2.2 m hbq
          have hwfm : m.wfKeys = true := by
            have hwfv := wfAttrs_lookup hbwfa hbq
            simpa [Value.wfKeys] using hwfv
          obtain ⟨a2, hvb2⟩ := ih child hlt m vi ai hplainC hwfm hvb
          refine ⟨?_, ?_, ?_, ?_⟩
          · intro hnone
            rw [hout] at hnone
            exact absurd hnone (by simp)
          · intro d hd
            rw [hout] at hd
            simp at hd
          · intro m2 hm2
            rw [hout] at hm2
            simp only [Option.some.injEq, Value.ns.injEq] at hm2
            subst hm2
            exact ⟨a2, hvb2⟩
          · intro w hw
            rw [hout] at hw
            simp only [Option.some.injEq] at hw
            subst hw
            simp [Value.isNs]
        | dict d0 =>
          obtain ⟨newD, hif, hout⟩ := hres.2.1 d0 hbq
          have hwfd : Namespace.wfInsts d0 = true := by
            have hwfv := wfAttrs_lookup hbwfa hbq
            simpa [Value.wfKeys] using hwfv
          have hnewD : ∀ r ∈ newD, ∃ a2, child.validate_block r.2 = .ok (r.2, a2) := by
            intro r hr
            obtain ⟨raw, ai, hrawmem, hvb⟩ := instancesFold_results child d0 newD hif r hr
            have hwfraw : raw.wfKeys = true := wfInsts_mem hwfd (r.1, raw) hrawmem
            exact ih child hlt raw r.2 ai hplainC hwfraw hvb
          refine ⟨?_, ?_, ?_, ?_⟩
          · intro hnone
            rw [hout] at hnone
            exact absurd hnone (by simp)
          · intro d2 hd2
            rw [hout] at hd2
            simp only [Option.some.injEq, Value.dict.injEq] at hd2
            subst hd2
            exact hnewD
          · intro m2 hm2
            rw [hout] at hm2
            simp at hm2
          · intro w hw
            rw [hout] at hw
            simp only [Option.some.injEq] at hw
            subst hw
            simp [Value.isDict]
    obtain ⟨outB2, hcf2⟩ := hcf2run
    refine ⟨Namespace.mk b.name outB2, ?_⟩
    rw [hvres]
    exact validate_block_ok_construct kind named desc required vald settings children
      (Namespace.mk b.name vOut) vOut vOut outB2 hck2 hsf2run hcf2 hpred

/-- Schema and inputs showing validation is not idempotent in general:
one optional setting `x` whose converter appends an exclamation mark
(non-idempotent, like the `timedelta`-style converters of the
repository's tests). -/
def c6setting : ConfigSetting :=
  ⟨"x", "", false, .none, [], some bangConv, Option.none⟩

def c6schema : ConfigBlock :=
  .mk "root" false "" false Option.none [("x", c6setting)] []

def c6raw : Namespace := .mk Option.none [("x", Value.str "a")]

def c6v1 : Namespace := .mk Option.none [("x", Value.str "a!")]

def c6v2 : Namespace := .mk Option.none [("x", Value.str "a!!")]

/-- C6 counterexample: with a converter that is not idempotent, the first
validation succeeds with x = "a!" but re-validating that output runs the
converter again (config.py line 272 passes every present value through
`validate_value`, line 119 applies the converter to it) and yields
x = "a!!", a different result. -/
theorem validate_block_not_idempotent :
    c6schema.validate_block c6raw = .ok (c6v1, c6raw) ∧
    c6schema.validate_block c6v1 = .ok (c6v2, c6v1) ∧ c6v2 ≠ c6v1 := by
  refine ⟨?_, ?_, ?_⟩
  · simp [c6schema, c6raw, c6v1, c6setting, bangConv,
      ConfigBlock.validate_block, checkKeys, settingsFold, childrenFold,
      ConfigSetting.validate_value, ConfigSetting.convertedOrDefault,
      Namespace.get, Namespace.attrs, Namespace.name, Value.isNone, Value.isNs,
      Value.isDict, setKey, List.lookup, hasKey]
  · simp [c6schema, c6v1, c6v2, c6setting, bangConv,
      ConfigBlock.validate_block, checkKeys, settingsFold, childrenFold,
      ConfigSetting.validate_value, ConfigSetting.convertedOrDefault,
      Namespace.get, Namespace.attrs, Namespace.name, Value.isNone, Value.isNs,
      Value.isDict, setKey, List.lookup, hasKey]
  · intro h
    simp [c6v1, c6v2] at h

/-- C6 (amended): validation is idempotent for converter-free schemas on
well-formed raw input.  For every schema block whose setting and child
names are distinct at every level, whose settings declare no converter and
no Namespace default, and for every raw Namespace whose dicts all have
distinct keys (as every Python dict does), if validation succeeds with
validated Namespace v, then validating v against the same schema succeeds
and returns exactly v again.  With a converter the property fails, as the
counterexample shows: every present value is passed through the converter
on each run (config.py lines 271-272 and 117-119). -/
theorem validate_block_idempotent (cb : ConfigBlock) (b v a : Namespace)
    (hplain : cb.plainSchema = true) (hwf : b.wfKeys = true)
    (hv : cb.validate_block b = .ok (v, a)) :
    ∃ a2, cb.validate_block v = .ok (v, a2) :=
  validate_block_idem_aux (sizeOf cb) cb le_rfl b v a hplain hwf hv

/-- C6 witness: the amended idempotence at a concrete converter-free
schema. -/
theorem validate_block_idempotent_witness :
    ∃ a2, (ConfigBlock.mk "root" false "" false Option.none
        [("x", ⟨"x", "", false, .none, [], Option.none, Option.none⟩)]
        []).validate_block (Namespace.mk Option.none [("x", Value.str "a")]) =
      .ok (Namespace.mk Option.none [("x", Value.str "a")], a2) :=
  validate_block_idempotent
    (ConfigBlock.mk "root" false "" false Option.none
      [("x", ⟨"x", "", false, .none, [], Option.none, Option.none⟩)] [])
    (Namespace.mk Option.none [("x", Value.str "a")])
    (Namespace.mk Option.none [("x", Value.str "a")])
    (Namespace.mk Option.none [("x", Value.str "a")])
    (by simp [ConfigBlock.plainSchema, ConfigBlock.plainChildren, keysNodupB,
      settingsPlain, settingPlain])
    (by simp [Namespace.wfKeys, Namespace.wfAttrs, Value.wfKeys, keysNodupB])
    (by simp [ConfigBlock.validate_block, checkKeys, settingsFold, childrenFold,
      ConfigSetting.validate_value, ConfigSetting.convertedOrDefault,
      Namespace.get, Namespace.attrs, Namespace.name, Value.isNone, Value.isNs,
      Value.isDict, setKey, List.lookup, hasKey])

end Comfyparse
